import Mathlib

/-!
# Verification of the custom-tar archive container engine

Shallow embedding of `Archive.cpp` / `Archive.hpp` (the current revision: the
one with `toRelativePath`, `Fingerprint` as a hex string, and the
`dataOffset`/`dataOffsetRef` fields in `Archive::File`).

Byte streams are modelled as `List Nat` (each element one byte).  The on-disk
header is the packed struct

```
struct TlvEntry { Tag_t length; uint32_t tag; } PACKED;
```

written and read with raw `write`/`read` on an x86-style little-endian host, so
a header serializes as four little-endian bytes of `length` followed by four
little-endian bytes of `tag`.  `uint32_t` casts are modelled with `% U32`.
-/

namespace Archive

/-- The modulus 2^32 of every `uint32_t` cast in the source. -/
def U32 : Nat := 4294967296

/-- Little-endian byte serialization of a `uint32_t` value (truncating cast). -/
def le32 (n : Nat) : List Nat :=
  [n % 256, n / 256 % 256, n / 65536 % 256, n / 16777216 % 256]

/-- Reading a `uint32_t` from the stream at byte position `pos`
(`archiveFile.read(reinterpret_cast<char*>(&x), 4)` on a little-endian host). -/
def readu32 (data : List Nat) (pos : Nat) : Nat :=
  data.getD pos 0 + 256 * data.getD (pos + 1) 0 + 65536 * data.getD (pos + 2) 0 +
    16777216 * data.getD (pos + 3) 0

/-- The `n` bytes of the stream starting at position `pos`. -/
def slice (data : List Nat) (pos n : Nat) : List Nat :=
  (data.drop pos).take n

/-- Tag `"FILE"_tag` = ('F' << 24) | ('I' << 16) | ('L' << 8) | 'E'. -/
def FILE_TAG : Nat := 70 * 16777216 + 73 * 65536 + 76 * 256 + 69

/-- Tag `"DIR_"_tag`. -/
def DIRECTORY_TAG : Nat := 68 * 16777216 + 73 * 65536 + 82 * 256 + 95

/-- Tag `"NAME"_tag`. -/
def NAME_TAG : Nat := 78 * 16777216 + 65 * 65536 + 77 * 256 + 69

/-- Tag `"DATA"_tag`. -/
def DATA_TAG : Nat := 68 * 16777216 + 65 * 65536 + 84 * 256 + 65

/-- Tag `"DATR"_tag` (DATA_REF_TAG). -/
def DATA_REF_TAG : Nat := 68 * 16777216 + 65 * 65536 + 84 * 256 + 82

/-- The 8 bytes of a `TlvEntry` header as the writer emits them: the struct
declares `length` first and `tag` second, so the length field comes first. -/
def hdr (l t : Nat) : List Nat := le32 l ++ le32 t

/-- A top-level record the writer can emit: a DIR record, a FILE record with
NAME+DATA children (original content), or a FILE record with NAME+DATA_REF
children (deduplicated content referencing an earlier record's entry offset). -/
inductive Rec
  | dir (name : List Nat)
  | fileData (name : List Nat) (content : List Nat)
  | fileRef (name : List Nat) (refOffset : Nat)
deriving DecidableEq

/-- The value of a record's `length` header field (`getTlvSize` for FILE
records: the sum over children of `sizeof(TlvEntry) + child.length`),
before the `uint32_t` truncation that `le32` applies. -/
def recLen : Rec → Nat
  | .dir n => n.length
  | .fileData n c => 16 + n.length + c.length
  | .fileRef n _ => 20 + n.length

/-- The record's `tag` header field. -/
def recTag : Rec → Nat
  | .dir _ => DIRECTORY_TAG
  | _ => FILE_TAG

/-- The payload bytes written after a record's header, mirroring the `write`
sequence in `addFile` / `addDuplicateFile` / `addDirectory`. -/
def recPayload : Rec → List Nat
  | .dir n => n
  | .fileData n c => hdr n.length NAME_TAG ++ n ++ hdr c.length DATA_TAG ++ c
  | .fileRef n r => hdr n.length NAME_TAG ++ n ++ hdr 4 DATA_REF_TAG ++ le32 r

/-- Full serialization of one record: header then payload. -/
def serRec (r : Rec) : List Nat := hdr (recLen r) (recTag r) ++ recPayload r

/-- Number of bytes a record occupies in the container. -/
def recSize : Rec → Nat
  | .dir n => 8 + n.length
  | .fileData n c => 24 + n.length + c.length
  | .fileRef n _ => 28 + n.length

/-- The raw container bytes for a record list. -/
def containerBytes (recs : List Rec) : List Nat := (recs.map serRec).flatten

/-! ## The fingerprint index and duplicate detection (writer side)

`m_files : std::map<Fingerprint, File>` maps the (hex string of the) 64-bit
digest of a file's content to the record of the first occurrence.  The stored
`File::name` is the on-disk path of that first occurrence; `compareFiles`
re-reads that file, so the index entry is modelled by the candidate's content
together with its stored `offset` (the `uint32_t`-cast entry offset). -/

/-- Index entry: `m_files[fingerprint]` (only the fields the writer reads:
`name` is used by `compareFiles` to re-read the original bytes, modelled
directly by `content`; `offset` is the payload of an emitted DATA_REF). -/
structure IdxFile where
  content : List Nat
  offset : Nat
deriving DecidableEq

/-- Lookup `m_files.find(fingerprint)` on the association list model. -/
def idxLookup (k : Nat) : List (Nat × IdxFile) → Option IdxFile
  | [] => none
  | (k2, v) :: rest => if k2 = k then some v else idxLookup k rest

/-- Assignment `m_files[fingerprint] = file` (insert-or-overwrite). -/
def idxInsert (k : Nat) (v : IdxFile) : List (Nat × IdxFile) → List (Nat × IdxFile)
  | [] => [(k, v)]
  | (k2, v2) :: rest => if k2 = k then (k2, v) :: rest else (k2, v2) :: idxInsert k v rest

/-- The `ifstream::read` chunk size in `compareFiles` (`char buffer[4096]`). -/
def CHUNK : Nat := 4096

/-- One-to-one model of the `do { ... } while (file1 && file2)` loop of
`Archive::compareFiles`.  Each iteration reads a chunk of up to 4096 bytes
from both files.  On a mismatch (differing byte counts or differing bytes) the
code closes both streams but does **not** return; the loop then exits either
immediately (when the reads that produced the mismatch already set
`eofbit|failbit`, i.e. a stream ended inside this chunk) or on the next
iteration (reading a closed stream sets `eofbit|failbit` on both).  The final
result is `file1.eof() && file2.eof()`.

`fuel` only bounds the recursion; every iteration that recurses removes 4096
bytes from `r1`, so `r1.length + 1` fuel (as used by `compareFiles`) is never
exhausted. -/
def cmpLoop : Nat → List Nat → List Nat → Bool
  | 0, _, _ => true
  | fuel + 1, r1, r2 =>
    let c1 := r1.take CHUNK
    let c2 := r2.take CHUNK
    let eof1 := decide (r1.length < CHUNK)
    let eof2 := decide (r2.length < CHUNK)
    if c1.length ≠ c2.length ∨ c1 ≠ c2 then
      -- mismatch: both files are closed, no return; the loop exits now if a
      -- stream already failed (eof during this read), else on the next
      -- (failing) read from the closed streams, which sets eof on both.
      if eof1 || eof2 then eof1 && eof2 else true
    else
      -- chunks equal (hence equal counts): loop exits iff this read hit EOF,
      -- in which case both eofbits are set and the function returns true.
      if eof1 then true else cmpLoop fuel (r1.drop CHUNK) (r2.drop CHUNK)

/-- Model of `Archive::compareFiles(path1, path2)` on the two files' contents. -/
def compareFiles (c1 c2 : List Nat) : Bool := cmpLoop (c1.length + 1) c1 c2

/-- Model of `Archive::findDuplicate`: compute the fingerprint, look it up, and accept
the candidate iff `compareFiles` accepts.  The digest is the pluggable
external hash primitive, modelled as a parameter `fp`. -/
def findDuplicate (fp : List Nat → Nat) (index : List (Nat × IdxFile))
    (c : List Nat) : Option IdxFile :=
  match idxLookup (fp c) index with
  | some cand => if compareFiles c cand.content then some cand else none
  | none => none

/-! ## The container writer (`Archive::create`) -/

/-- One entry yielded by `recursive_directory_iterator`, already carrying its
path relative to the input root (`toRelativePath`).  A regular file whose
content is `none` models a file that cannot be opened for reading. -/
inductive Entry
  | dir (name : List Nat)
  | file (name : List Nat) (content : Option (List Nat))
deriving DecidableEq

/-- Writer state: the records emitted so far, the output stream position
(`tellp`), the fingerprint index `m_files`, and the number of per-file
errors reported to `cerr`. -/
structure WState where
  recs : List Rec
  pos : Nat
  index : List (Nat × IdxFile)
  errors : Nat
deriving DecidableEq

/-- Model of `Archive::addDirectory`: emit a DIR record for the relative path. -/
def addDirectory (st : WState) (n : List Nat) : WState :=
  { st with recs := st.recs ++ [Rec.dir n], pos := st.pos + recSize (Rec.dir n) }

/-- Model of `Archive::addFile`: if the input file cannot be opened, report and skip;
if `findDuplicate` returns a candidate, emit a FILE record with NAME+DATA_REF
children (`addDuplicateFile`) whose payload is the candidate's stored entry
offset; otherwise emit a FILE record with NAME+DATA children and insert this
file (with its `uint32_t`-cast entry offset `tellp`) into the index. -/
def addFile (fp : List Nat → Nat) (st : WState) (n : List Nat)
    (content : Option (List Nat)) : WState :=
  match content with
  | none => { st with errors := st.errors + 1 }
  | some c =>
    match findDuplicate fp st.index c with
    | some cand =>
        { st with recs := st.recs ++ [Rec.fileRef n cand.offset],
                  pos := st.pos + recSize (Rec.fileRef n cand.offset) }
    | none =>
        { st with recs := st.recs ++ [Rec.fileData n c],
                  pos := st.pos + recSize (Rec.fileData n c),
                  index := idxInsert (fp c) ⟨c, st.pos % U32⟩ st.index }

/-- One iteration of the `recursive_directory_iterator` loop in `create`. -/
def stepEntry (fp : List Nat → Nat) (st : WState) : Entry → WState
  | .dir n => addDirectory st n
  | .file n c => addFile fp st n c

/-- The directory walk of `Archive::create` starting from a fresh stream and
an empty fingerprint index. -/
def createWalk (fp : List Nat → Nat) (entries : List Entry) : WState :=
  entries.foldl (stepEntry fp) ⟨[], 0, [], 0⟩

/-- Model of `Archive::create` including its two preconditions (input path exists,
archive file opens); it returns `true` whenever the walk runs, regardless of
per-file errors. -/
def create (fp : List Nat → Nat) (inputExists archiveOpens : Bool)
    (entries : List Entry) : Bool × WState :=
  if inputExists = false then (false, ⟨[], 0, [], 0⟩)
  else if archiveOpens = false then (false, ⟨[], 0, [], 0⟩)
  else (true, createWalk fp entries)

/-- The container bytes produced by one `create` invocation. -/
def container (fp : List Nat → Nat) (entries : List Entry) : List Nat :=
  containerBytes (createWalk fp entries).recs

/-! ## The container reader (`Archive::extract`) -/

/-- The struct `Archive::File` as built by `readFile` (default-constructed fields). -/
structure RFile where
  name : List Nat := []
  size : Nat := 0
  offset : Nat := 0
  dataOffset : Nat := 0
  dataOffsetRef : Nat := 0
deriving DecidableEq

/-- The sub-record loop of `Archive::readFile`.  Arguments after the stream:
fuel, `bytesRead`, the outer record's `length`, the stream position (`tellg`),
and the `File` under construction.  Returns the file, the final stream
position, and whether the stream failed (a short read), in which case the
caller's top-level read loop terminates.

Loop body (Archive.cpp:698-727): read an 8-byte `TlvEntry`; on NAME read
`entry.length` name bytes; on DATA record `tellg` as `dataOffset` and
`entry.length` as `size`, then seek past the payload; on DATA_REF read a
4-byte offset (regardless of `entry.length`); on any other tag do nothing —
the payload bytes are *not* skipped.  `bytesRead` grows by
`sizeof(entry) + entry.length` every iteration.

Every iteration adds at least 8 to `bytesRead` and requires `bytesRead < len`,
so at most `len` iterations occur; `readFile` passes `len` as fuel, which is
therefore never exhausted. -/
def rfLoop (data : List Nat) : Nat → Nat → Nat → Nat → RFile → RFile × Nat × Bool
  | 0, _, _, pos, f => (f, pos, false)
  | fuel + 1, bytesRead, len, pos, f =>
    if bytesRead < len ∧ pos + 8 ≤ data.length then
      let el := readu32 data pos
      let et := readu32 data (pos + 4)
      let pos2 := pos + 8
      let br2 := bytesRead + 8
      if et = NAME_TAG then
        if pos2 + el ≤ data.length then
          rfLoop data fuel (br2 + el) len (pos2 + el) { f with name := slice data pos2 el }
        else ({ f with name := slice data pos2 el }, data.length, true)
      else if et = DATA_TAG then
        rfLoop data fuel (br2 + el) len (pos2 + el)
          { f with dataOffset := pos2 % U32, size := el }
      else if et = DATA_REF_TAG then
        if pos2 + 4 ≤ data.length then
          rfLoop data fuel (br2 + el) len (pos2 + 4)
            { f with dataOffsetRef := readu32 data pos2 }
        else (f, data.length, true)
      else
        rfLoop data fuel (br2 + el) len pos2 f
    else (f, pos, false)

/-- Model of `Archive::readFile(archiveFile, length)` called with the stream just after
the outer FILE header at position `pos`.  `file.offset` is set to
`uint32_t(tellg()) - uint32_t(sizeof(TlvEntry))` before the loop. -/
def readFile (data : List Nat) (pos len : Nat) : RFile × Nat × Bool :=
  rfLoop data len 0 len pos { offset := (pos + U32 - 8) % U32 }

/-- The top-level TLV decode loop shared by `extract` (Archive.cpp:443-461):
read an 8-byte header; on DIR read the path and create the directory; on FILE
run `readFile` and insert the result into the offset-keyed table; on any other
tag seek past `length` bytes.  The loop ends when a header read fails.

Directories are collected as their relative paths; the file table is kept in
insertion order, which (for containers below 4 GiB) is strictly increasing in
`offset`, matching `std::map`'s key order and uniqueness.

Each iteration advances `pos` by at least 8 and requires `pos + 8 ≤
data.length`, so at most `data.length` iterations occur; `extract` passes
`data.length` as fuel, which is therefore never exhausted. -/
def exLoop (data : List Nat) : Nat → Nat → List (List Nat) → List RFile →
    List (List Nat) × List RFile
  | 0, _, dirs, files => (dirs, files)
  | fuel + 1, pos, dirs, files =>
    if pos + 8 ≤ data.length then
      let el := readu32 data pos
      let et := readu32 data (pos + 4)
      let pos2 := pos + 8
      if et = DIRECTORY_TAG then
        if pos2 + el ≤ data.length then
          exLoop data fuel (pos2 + el) (dirs ++ [slice data pos2 el]) files
        else (dirs ++ [slice data pos2 el], files)
      else if et = FILE_TAG then
        let r := readFile data pos2 el
        if r.2.2 then (dirs, files ++ [r.1])
        else exLoop data fuel r.2.1 dirs (files ++ [r.1])
      else
        exLoop data fuel (pos2 + el) dirs files
    else (dirs, files)

/-- What `Archive::extractFiles` produces: the output files written (name and
bytes), the names for which "Could not find original data" was reported
(dangling DATA_REF), and the names for which "Unexpected end of file" was
reported (short read of content bytes). -/
structure XOut where
  outputs : List (List Nat × List Nat)
  refErrors : List (List Nat)
  truncErrors : List (List Nat)
deriving DecidableEq

/-- The loop of `Archive::extractFiles` (Archive.cpp:735-791) over the
remaining files, with `table` the complete offset-keyed map.  A record with
nonzero `dataOffsetRef` is a duplicate: its target is looked up in the map; if
absent the error is reported and the record skipped (`continue`); if present
the record adopts the target's `dataOffset` and `size` — with no check that
the target owns data.  Every non-skipped record then has
`min(size, available)` bytes copied from `dataOffset`, reporting a short-read
error if fewer than `size` bytes could be read. -/
def extractFilesGo (data : List Nat) (table : List RFile) : List RFile → XOut
  | [] => ⟨[], [], []⟩
  | f :: rest =>
    let acc := extractFilesGo data table rest
    if f.dataOffsetRef ≠ 0 then
      match table.find? (fun t => t.offset = f.dataOffsetRef) with
      | some t =>
          let c := slice data t.dataOffset t.size
          { acc with outputs := (f.name, c) :: acc.outputs,
                     truncErrors :=
                       if c.length < t.size then f.name :: acc.truncErrors
                       else acc.truncErrors }
      | none => { acc with refErrors := f.name :: acc.refErrors }
    else
      let c := slice data f.dataOffset f.size
      { acc with outputs := (f.name, c) :: acc.outputs,
                 truncErrors :=
                   if c.length < f.size then f.name :: acc.truncErrors
                   else acc.truncErrors }

/-- Model of `Archive::extractFiles(files, outPath, archiveFile)`. -/
def extractFiles (data : List Nat) (table : List RFile) : XOut :=
  extractFilesGo data table table

/-- Model of `Archive::extract`: decode the container into directories and the file
table, then extract the files.  Returns the created directories (relative
paths) and the extraction outcome. -/
def extract (data : List Nat) : List (List Nat) × XOut :=
  let p := exLoop data data.length 0 [] []
  (p.1, extractFiles data p.2)

/-! ## Specification-side views used to state the claims -/

/-- The record an entry produces when no duplicate is detected (and `none`
for an unopenable file, which produces no record). -/
def toRec : Entry → Option Rec
  | .dir n => some (Rec.dir n)
  | .file n (some c) => some (Rec.fileData n c)
  | .file _ none => none

/-- The contents of the openable regular files of a tree, in walk order. -/
def fileContents (entries : List Entry) : List (List Nat) :=
  entries.filterMap fun e => match e with
    | .file _ (some c) => some c
    | _ => none

/-- The relative directory paths of a tree, in walk order. -/
def entryDirs (entries : List Entry) : List (List Nat) :=
  entries.filterMap fun e => match e with
    | .dir n => some n
    | _ => none

/-- The (relative path, content) pairs of a tree's openable files. -/
def entryFiles (entries : List Entry) : List (List Nat × List Nat) :=
  entries.filterMap fun e => match e with
    | .file n (some c) => some (n, c)
    | _ => none

/-- Whether an entry is a regular file that cannot be opened for reading. -/
def entryUnopenable : Entry → Bool
  | .file _ none => true
  | _ => false

/-- The (name, content) pairs of the original-content FILE records of a
record list, in container order. -/
def dataOutputs (recs : List Rec) : List (List Nat × List Nat) :=
  recs.filterMap fun r => match r with
    | .fileData n c => some (n, c)
    | _ => none

/-- The names of the DATA_REF-carrying FILE records, in container order. -/
def refNames (recs : List Rec) : List (List Nat) :=
  recs.filterMap fun r => match r with
    | .fileRef n _ => some n
    | _ => none

/-- The DIR record paths of a record list, in container order. -/
def dirNames (recs : List Rec) : List (List Nat) :=
  recs.filterMap fun r => match r with
    | .dir n => some n
    | _ => none

/-- The `Archive::File` the reader builds for the record starting at container
offset `q` (none for DIR records), assuming offsets below 2^32. -/
def parseRec (q : Nat) : Rec → Option RFile
  | .dir _ => none
  | .fileData n c => some ⟨n, c.length, q, q + 24 + n.length, 0⟩
  | .fileRef n r => some ⟨n, 0, q, 0, r⟩

/-- The reader's file table for a record list whose serialization starts at
container offset `q`. -/
def parseAll : Nat → List Rec → List RFile
  | _, [] => []
  | q, r :: rs => (parseRec q r).toList ++ parseAll (q + recSize r) rs

/-- The container offsets of the FILE records of a record list serialized
starting at offset `q` — the key set of the reader's table. -/
def filePositions : Nat → List Rec → List Nat
  | _, [] => []
  | q, .dir n :: rs => filePositions (q + recSize (Rec.dir n)) rs
  | q, .fileData n c :: rs => q :: filePositions (q + recSize (Rec.fileData n c)) rs
  | q, .fileRef n r :: rs => q :: filePositions (q + recSize (Rec.fileRef n r)) rs

/-- Structural well-formedness of a record with respect to the `uint32_t`
header fields: the length fields and any DATA_REF payload fit in 32 bits. -/
def wfRec : Rec → Prop
  | .dir n => n.length < U32
  | .fileData n c => n.length < U32 ∧ c.length < U32 ∧ 16 + n.length + c.length < U32
  | .fileRef n r => n.length < U32 ∧ 20 + n.length < U32 ∧ r < U32

instance : DecidablePred wfRec := fun r => by
  cases r <;> simp [wfRec] <;> infer_instance

/-- Whether a record is a DATA_REF-carrying FILE record. -/
def isRef : Rec → Bool
  | .fileRef _ _ => true
  | _ => false

/-- A tree consisting of some directories followed by two regular files with
byte-identical content — the canonical deduplication scenario. -/
def pairEntries (ds : List (List Nat)) (na nb c : List Nat) : List Entry :=
  ds.map Entry.dir ++ [Entry.file na (some c), Entry.file nb (some c)]

/-- Total serialized size of a list of DIR records — the container offset at
which the record following them starts. -/
def dirsSize (ds : List (List Nat)) : Nat :=
  (ds.map fun n => recSize (Rec.dir n)).sum

/-! ## Concrete inputs used by counterexamples and witnesses -/

/-- Two one-byte files with distinct contents (`0x00`, `0x01`): a tree with no
duplicate file contents. -/
def c1Entries : List Entry := [Entry.file [97] (some [0]), Entry.file [98] (some [1])]

/-- A constant (always-colliding) 64-bit digest — a legal instantiation of the
pluggable hash primitive (spec sections 1 and 8). -/
def constFp : List Nat → Nat := fun _ => 0

/-- A digest that distinguishes the contents of `c1Entries` (their first
byte). -/
def headFp : List Nat → Nat := fun l => l.headD 0

/-- A directory and two openable files with distinct contents. -/
def okEntries : List Entry :=
  [Entry.dir [100], Entry.file [97] (some [1]), Entry.file [98] (some [2, 3])]

/-- Two files with byte-identical content and no preceding record: the first
FILE record lands at container offset 0. -/
def c2Entries : List Entry := [Entry.file [97] (some [1]), Entry.file [98] (some [1])]

/-- An unknown sub-record tag (`"XXXX"`). -/
def unkT : Nat := 88 * 16777216 + 88 * 65536 + 88 * 256 + 88

/-- A hand-crafted container: one FILE record whose payload is a NAME
sub-record followed by an unrecognized sub-record (tag `"XXXX"`, length 2),
followed by a DIR record for path `"d"`.  The FILE record's `length` field
(19) exactly covers its payload. -/
def unkContainer : List Nat :=
  hdr 19 FILE_TAG ++ (hdr 1 NAME_TAG ++ [97] ++ hdr 2 unkT ++ [5, 6]) ++
    serRec (Rec.dir [100])

/-- A hand-crafted container with a chained reference: the record at offset 64
(`"x"`) references the record at offset 35 (`"b"`), which is itself a
reference to the original-content record at offset 9 (`"a"`). -/
def chainContainer : List Nat :=
  containerBytes
    [Rec.dir [100], Rec.fileData [97] [7], Rec.fileRef [98] 9, Rec.fileRef [120] 35]

/-- A hand-crafted container whose single FILE record carries a DATA_REF with
payload 0; offset 0 is absent from the reader's table (the only FILE record
sits at offset 9). -/
def zeroDangContainer : List Nat :=
  containerBytes [Rec.dir [100], Rec.fileRef [98] 0]

/-- A hand-crafted container with exactly one dangling DATA_REF (nonzero
offset 77, absent from the table) among otherwise valid records. -/
def nzDangContainer : List Rec :=
  [Rec.dir [100], Rec.fileData [97] [7], Rec.fileRef [98] 77, Rec.fileData [99] [8, 9]]

/-! ## Byte-level helper lemmas -/

theorem le32_length (n : Nat) : (le32 n).length = 4 := rfl

theorem hdr_length (l t : Nat) : (hdr l t).length = 8 := rfl

theorem serRec_length (r : Rec) : (serRec r).length = recSize r := by
  cases r <;>
    simp [serRec, recPayload, recLen, recSize, hdr, le32] <;> omega

theorem recSize_pos (r : Rec) : 8 ≤ recSize r := by
  cases r <;> simp [recSize] <;> omega

theorem containerBytes_cons (r : Rec) (rs : List Rec) :
    containerBytes (r :: rs) = serRec r ++ containerBytes rs := by
  simp [containerBytes]

theorem containerBytes_append (xs ys : List Rec) :
    containerBytes (xs ++ ys) = containerBytes xs ++ containerBytes ys := by
  simp [containerBytes]

/-- Reading a serialized `uint32_t` back recovers the value mod 2^32. -/
theorem readu32_at (data pre rest : List Nat) (n : Nat)
    (h : data = pre ++ (le32 n ++ rest)) :
    readu32 data pre.length = n % U32 := by
  subst h
  have h0 : ∀ i : Nat, (pre ++ (le32 n ++ rest)).getD (pre.length + i) 0 =
      (le32 n ++ rest).getD i 0 := by
    intro i
    rw [List.getD_append_right _ _ _ _ (Nat.le_add_right _ _)]
    congr 1
    omega
  have g0 := h0 0
  have g1 := h0 1
  have g2 := h0 2
  have g3 := h0 3
  simp only [Nat.add_zero] at g0
  unfold readu32
  rw [g0, g1, g2, g3]
  simp only [le32, List.cons_append, List.getD_cons_zero, List.getD_cons_succ]
  show n % 256 + 256 * (n / 256 % 256) + 65536 * (n / 65536 % 256) +
      16777216 * (n / 16777216 % 256) = n % U32
  unfold U32
  omega

/-- Slicing the stream at an append boundary recovers the middle chunk. -/
theorem slice_at (data pre mid rest : List Nat)
    (h : data = pre ++ (mid ++ rest)) :
    slice data pre.length mid.length = mid := by
  subst h
  unfold slice
  rw [List.drop_left, List.take_left]

/-! ## Behaviour of the `readFile` sub-record loop -/

/-- Once `bytesRead` reaches the declared length the loop stops, whatever the
remaining fuel. -/
theorem rfLoop_stop (data : List Nat) (fuel bytesRead len pos : Nat) (f : RFile)
    (h : ¬ bytesRead < len) :
    rfLoop data fuel bytesRead len pos f = (f, pos, false) := by
  cases fuel with
  | zero => rfl
  | succ k =>
    rw [rfLoop]
    rw [if_neg]
    intro hc
    exact h hc.1

/-- Decoding the payload of an original-content FILE record (NAME sub-record
then DATA sub-record): the loop consumes exactly the declared
`16 + |name| + |content|` payload bytes, records the name, the content size
and the content position, and reports no failure. -/
theorem rfLoop_fileData (data pre n c rest : List Nat) (f0 : RFile) (fuel : Nat)
    (hfuel : 2 ≤ fuel) (hn : n.length < U32) (hc : c.length < U32)
    (hdata : data = pre ++ (hdr n.length NAME_TAG ++ (n ++ (hdr c.length DATA_TAG ++ (c ++ rest))))) :
    rfLoop data fuel 0 (16 + n.length + c.length) pre.length f0
      = ({ f0 with name := n, size := c.length,
                   dataOffset := (pre.length + 16 + n.length) % U32 },
         pre.length + 16 + n.length + c.length, false) := by
  obtain ⟨k, rfl⟩ : ∃ k, fuel = k + 2 := ⟨fuel - 2, by omega⟩
  have hlen : data.length = pre.length + 16 + n.length + c.length + rest.length := by
    subst hdata; simp [hdr, le32]; omega
  have hel1 : readu32 data pre.length = n.length := by
    rw [readu32_at data pre (le32 NAME_TAG ++ (n ++ (hdr c.length DATA_TAG ++ (c ++ rest)))) n.length
      (by rw [hdata]; simp [hdr])]
    exact Nat.mod_eq_of_lt hn
  have het1 : readu32 data (pre.length + 4) = NAME_TAG := by
    have h4 : pre.length + 4 = (pre ++ le32 n.length).length := by simp [le32]
    rw [h4, readu32_at _ (pre ++ le32 n.length)
      (n ++ (hdr c.length DATA_TAG ++ (c ++ rest))) NAME_TAG
      (by rw [hdata]; simp [hdr])]
    decide
  have hname : slice data (pre.length + 8) n.length = n := by
    have h8 : pre.length + 8 = (pre ++ hdr n.length NAME_TAG).length := by simp [hdr, le32]
    rw [h8, slice_at _ (pre ++ hdr n.length NAME_TAG)
      n (hdr c.length DATA_TAG ++ (c ++ rest)) (by rw [hdata]; simp)]
  have hel2 : readu32 data (pre.length + 8 + n.length) = c.length := by
    have h8 : pre.length + 8 + n.length = (pre ++ hdr n.length NAME_TAG ++ n).length := by
      simp [hdr, le32]; omega
    rw [h8, readu32_at _ (pre ++ hdr n.length NAME_TAG ++ n)
      (le32 DATA_TAG ++ (c ++ rest)) c.length
      (by rw [hdata]; simp [hdr])]
    exact Nat.mod_eq_of_lt hc
  have het2 : readu32 data (pre.length + 8 + n.length + 4) = DATA_TAG := by
    have h12 : pre.length + 8 + n.length + 4 =
        (pre ++ hdr n.length NAME_TAG ++ n ++ le32 c.length).length := by
      simp [hdr, le32]; omega
    rw [h12, readu32_at _ (pre ++ hdr n.length NAME_TAG ++ n ++ le32 c.length)
      (c ++ rest) DATA_TAG (by rw [hdata]; simp [hdr])]
    decide
  have hg1 : 0 < 16 + n.length + c.length ∧ pre.length + 8 ≤ data.length :=
    ⟨by omega, by omega⟩
  have hg2 : 0 + 8 + n.length < 16 + n.length + c.length ∧
      pre.length + 8 + n.length + 8 ≤ data.length := ⟨by omega, by omega⟩
  rw [rfLoop]
  rw [if_pos hg1]
  simp only [hel1, het1, if_pos rfl]
  rw [if_pos (by omega : pre.length + 8 + n.length ≤ data.length)]
  rw [hname]
  rw [rfLoop]
  simp only [hel2]
  rw [show readu32 data (pre.length + 8 + n.length + 4) = DATA_TAG from het2]
  rw [if_neg (by decide : ¬ (DATA_TAG = NAME_TAG)), if_pos rfl]
  rw [rfLoop_stop data k _ _ _ _ (by omega)]
  rw [if_pos hg2]
  have e1 : pre.length + 8 + n.length + 8 = pre.length + 16 + n.length := by omega
  have e2 : pre.length + 8 + n.length + 8 + c.length =
      pre.length + 16 + n.length + c.length := by omega
  simp [e1, e2]

/-- Decoding the payload of a deduplicated FILE record (NAME sub-record then
DATA_REF sub-record with a 4-byte payload): the loop consumes exactly the
declared `20 + |name|` payload bytes, records the name and the reference
offset, leaves `dataOffset` and `size` at their defaults, and reports no
failure. -/
theorem rfLoop_fileRef (data pre n rest : List Nat) (r : Nat) (f0 : RFile) (fuel : Nat)
    (hfuel : 2 ≤ fuel) (hn : n.length < U32) (hr : r < U32)
    (hdata : data = pre ++ (hdr n.length NAME_TAG ++ (n ++ (hdr 4 DATA_REF_TAG ++ (le32 r ++ rest))))) :
    rfLoop data fuel 0 (20 + n.length) pre.length f0
      = ({ f0 with name := n, dataOffsetRef := r }, pre.length + 20 + n.length, false) := by
  obtain ⟨k, rfl⟩ : ∃ k, fuel = k + 2 := ⟨fuel - 2, by omega⟩
  have hlen : data.length = pre.length + 20 + n.length + rest.length := by
    subst hdata; simp [hdr, le32]; omega
  have hel1 : readu32 data pre.length = n.length := by
    rw [readu32_at data pre (le32 NAME_TAG ++ (n ++ (hdr 4 DATA_REF_TAG ++ (le32 r ++ rest)))) n.length
      (by rw [hdata]; simp [hdr])]
    exact Nat.mod_eq_of_lt hn
  have het1 : readu32 data (pre.length + 4) = NAME_TAG := by
    have h4 : pre.length + 4 = (pre ++ le32 n.length).length := by simp [le32]
    rw [h4, readu32_at _ (pre ++ le32 n.length)
      (n ++ (hdr 4 DATA_REF_TAG ++ (le32 r ++ rest))) NAME_TAG
      (by rw [hdata]; simp [hdr])]
    decide
  have hname : slice data (pre.length + 8) n.length = n := by
    have h8 : pre.length + 8 = (pre ++ hdr n.length NAME_TAG).length := by simp [hdr, le32]
    rw [h8, slice_at _ (pre ++ hdr n.length NAME_TAG)
      n (hdr 4 DATA_REF_TAG ++ (le32 r ++ rest)) (by rw [hdata]; simp)]
  have hel2 : readu32 data (pre.length + 8 + n.length) = 4 := by
    have h8 : pre.length + 8 + n.length = (pre ++ hdr n.length NAME_TAG ++ n).length := by
      simp [hdr, le32]; omega
    rw [h8, readu32_at _ (pre ++ hdr n.length NAME_TAG ++ n)
      (le32 DATA_REF_TAG ++ (le32 r ++ rest)) 4
      (by rw [hdata]; simp [hdr])]
    decide
  have het2 : readu32 data (pre.length + 8 + n.length + 4) = DATA_REF_TAG := by
    have h12 : pre.length + 8 + n.length + 4 =
        (pre ++ hdr n.length NAME_TAG ++ n ++ le32 4).length := by
      simp [hdr, le32]; omega
    rw [h12, readu32_at _ (pre ++ hdr n.length NAME_TAG ++ n ++ le32 4)
      (le32 r ++ rest) DATA_REF_TAG (by rw [hdata]; simp [hdr])]
    decide
  have hrv : readu32 data (pre.length + 8 + n.length + 8) = r := by
    have h16 : pre.length + 8 + n.length + 8 =
        (pre ++ hdr n.length NAME_TAG ++ n ++ hdr 4 DATA_REF_TAG).length := by
      simp [hdr, le32]; omega
    rw [h16, readu32_at _ (pre ++ hdr n.length NAME_TAG ++ n ++ hdr 4 DATA_REF_TAG)
      rest r (by rw [hdata]; simp [hdr])]
    exact Nat.mod_eq_of_lt hr
  have hg1 : 0 < 20 + n.length ∧ pre.length + 8 ≤ data.length := ⟨by omega, by omega⟩
  have hg2 : 0 + 8 + n.length < 20 + n.length ∧
      pre.length + 8 + n.length + 8 ≤ data.length := ⟨by omega, by omega⟩
  rw [rfLoop]
  rw [if_pos hg1]
  simp only [hel1, het1, if_pos rfl]
  rw [if_pos (by omega : pre.length + 8 + n.length ≤ data.length)]
  rw [hname]
  rw [rfLoop]
  simp only [hel2]
  rw [show readu32 data (pre.length + 8 + n.length + 4) = DATA_REF_TAG from het2]
  rw [if_neg (by decide : ¬ (DATA_REF_TAG = NAME_TAG)),
      if_neg (by decide : ¬ (DATA_REF_TAG = DATA_TAG)), if_pos rfl]
  rw [if_pos (by omega : pre.length + 8 + n.length + 8 + 4 ≤ data.length)]
  rw [hrv]
  rw [rfLoop_stop data k _ _ _ _ (by omega)]
  rw [if_pos hg2]
  have e1 : pre.length + 8 + n.length + 8 + 4 = pre.length + 20 + n.length := by omega
  simp [e1]

/-! ## The top-level decode loop on well-formed containers -/

/-- The top-level loop stops when no full header remains. -/
theorem exLoop_stop (data : List Nat) (fuel pos : Nat) (dirs : List (List Nat))
    (files : List RFile) (h : ¬ pos + 8 ≤ data.length) :
    exLoop data fuel pos dirs files = (dirs, files) := by
  cases fuel with
  | zero => rfl
  | succ k => rw [exLoop, if_neg h]

/-- Parsing a serialized record list positioned after an arbitrary prefix:
the top-level loop of `extract` decodes exactly the DIR paths and the file
table described by `parseAll`/`dirNames`, provided the container stays below
4 GiB (so that no `uint32_t` position cast truncates). -/
theorem exLoop_parse (recs : List Rec) : ∀ (fuel : Nat) (pre : List Nat)
    (dirs : List (List Nat)) (files : List RFile),
    (∀ r ∈ recs, wfRec r) →
    pre.length + (containerBytes recs).length < U32 →
    recs.length ≤ fuel →
    exLoop (pre ++ containerBytes recs) fuel pre.length dirs files
      = (dirs ++ dirNames recs, files ++ parseAll pre.length recs) := by
  induction recs with
  | nil =>
    intro fuel pre dirs files _ _ _
    rw [exLoop_stop _ _ _ _ _ (by simp [containerBytes])]
    simp [dirNames, parseAll]
  | cons r rs ih =>
    intro fuel pre dirs files hwf hfit hfuel
    have hf1 : 1 ≤ fuel := by
      have h1 : (r :: rs).length = rs.length + 1 := List.length_cons r rs
      omega
    obtain ⟨k, rfl⟩ : ∃ k, fuel = k + 1 := ⟨fuel - 1, by omega⟩
    have hwfr : wfRec r := hwf r (List.mem_cons_self r rs)
    have hwfs : ∀ x ∈ rs, wfRec x := fun x hx => hwf x (List.mem_cons_of_mem r hx)
    have hcb : containerBytes (r :: rs) = serRec r ++ containerBytes rs :=
      containerBytes_cons r rs
    have hlen : (pre ++ containerBytes (r :: rs)).length =
        pre.length + recSize r + (containerBytes rs).length := by
      rw [hcb]; simp [serRec_length]; omega
    have hguard : pre.length + 8 ≤ (pre ++ containerBytes (r :: rs)).length := by
      rw [hlen]; have := recSize_pos r; omega
    have hfit2 : (pre ++ serRec r).length + (containerBytes rs).length < U32 := by
      have : (containerBytes (r :: rs)).length =
          recSize r + (containerBytes rs).length := by
        rw [hcb]; simp [serRec_length]
      simp only [List.length_append, serRec_length]
      omega
    have hpre2 : (pre ++ serRec r).length = pre.length + recSize r := by
      simp [serRec_length]
    rw [exLoop, if_pos hguard]
    cases r with
    | dir n =>
      have hnl : n.length < U32 := hwfr
      have hel : readu32 (pre ++ containerBytes (Rec.dir n :: rs)) pre.length = n.length := by
        rw [readu32_at _ pre (le32 DIRECTORY_TAG ++ (n ++ containerBytes rs)) n.length
          (by rw [hcb]; simp [serRec, recPayload, recLen, recTag, hdr])]
        exact Nat.mod_eq_of_lt hnl
      have het : readu32 (pre ++ containerBytes (Rec.dir n :: rs)) (pre.length + 4) =
          DIRECTORY_TAG := by
        have h4 : pre.length + 4 = (pre ++ le32 n.length).length := by simp [le32]
        rw [h4, readu32_at _ (pre ++ le32 n.length) (n ++ containerBytes rs) DIRECTORY_TAG
          (by rw [hcb]; simp [serRec, recPayload, recLen, recTag, hdr])]
        decide
      have hdguard : pre.length + 8 + n.length ≤
          (pre ++ containerBytes (Rec.dir n :: rs)).length := by
        simp only [hlen, recSize]; omega
      have hslice : slice (pre ++ containerBytes (Rec.dir n :: rs)) (pre.length + 8) n.length
          = n := by
        have h8 : pre.length + 8 = (pre ++ hdr n.length DIRECTORY_TAG).length := by
          simp [hdr, le32]
        rw [h8, slice_at _ (pre ++ hdr n.length DIRECTORY_TAG) n (containerBytes rs)
          (by rw [hcb]; simp [serRec, recPayload, recLen, recTag])]
      simp only [hel, het, if_pos rfl]
      rw [if_pos hdguard, hslice]
      have hstep : pre.length + 8 + n.length = (pre ++ serRec (Rec.dir n)).length := by
        rw [hpre2]; simp [recSize]; omega
      have hdata2 : pre ++ containerBytes (Rec.dir n :: rs) =
          (pre ++ serRec (Rec.dir n)) ++ containerBytes rs := by
        rw [hcb]; simp
      rw [hstep, hdata2, ih k (pre ++ serRec (Rec.dir n)) _ _ hwfs hfit2 (by
        simpa using Nat.le_of_succ_le_succ hfuel)]
      simp [dirNames, parseAll, parseRec, hpre2, recSize]
    | fileData n c =>
      have hnl : n.length < U32 := hwfr.1
      have hcl : c.length < U32 := hwfr.2.1
      have hrl : 16 + n.length + c.length < U32 := hwfr.2.2
      have hel : readu32 (pre ++ containerBytes (Rec.fileData n c :: rs)) pre.length =
          16 + n.length + c.length := by
        rw [readu32_at _ pre (le32 FILE_TAG ++ (recPayload (Rec.fileData n c) ++ containerBytes rs))
          (16 + n.length + c.length)
          (by rw [hcb]; simp [serRec, recLen, recTag, hdr])]
        exact Nat.mod_eq_of_lt hrl
      have het : readu32 (pre ++ containerBytes (Rec.fileData n c :: rs)) (pre.length + 4) =
          FILE_TAG := by
        have h4 : pre.length + 4 = (pre ++ le32 (16 + n.length + c.length)).length := by
          simp [le32]
        rw [h4, readu32_at _ (pre ++ le32 (16 + n.length + c.length))
          (recPayload (Rec.fileData n c) ++ containerBytes rs) FILE_TAG
          (by rw [hcb]; simp [serRec, recLen, recTag, hdr])]
        decide
      simp only [hel, het]
      rw [if_neg (show ¬ (FILE_TAG = DIRECTORY_TAG) from by decide)]
      rw [if_pos trivial]
      have hrf : readFile (pre ++ containerBytes (Rec.fileData n c :: rs)) (pre.length + 8)
          (16 + n.length + c.length)
          = ({ name := n, size := c.length, offset := pre.length,
               dataOffset := pre.length + 24 + n.length, dataOffsetRef := 0 },
             pre.length + recSize (Rec.fileData n c), false) := by
        unfold readFile
        have h8 : pre.length + 8 = (pre ++ hdr (16 + n.length + c.length) FILE_TAG).length := by
          simp [hdr, le32]
        rw [h8]
        rw [rfLoop_fileData _ (pre ++ hdr (16 + n.length + c.length) FILE_TAG) n c
          (containerBytes rs) _ _ (by omega) hnl hcl
          (by rw [hcb]; simp [serRec, recPayload, recLen, recTag, hdr])]
        have hoff : ((pre ++ hdr (16 + n.length + c.length) FILE_TAG).length + U32 - 8) % U32
            = pre.length := by
          have hq : (pre ++ hdr (16 + n.length + c.length) FILE_TAG).length =
              pre.length + 8 := by simp [hdr, le32]
          rw [hq]
          have : pre.length + 8 + U32 - 8 = pre.length + U32 := by unfold U32; omega
          rw [this, Nat.add_mod_right]
          exact Nat.mod_eq_of_lt (by unfold U32 at *; omega)
        have hdo : ((pre ++ hdr (16 + n.length + c.length) FILE_TAG).length + 16 + n.length) % U32
            = pre.length + 24 + n.length := by
          have hq : (pre ++ hdr (16 + n.length + c.length) FILE_TAG).length =
              pre.length + 8 := by simp [hdr, le32]
          rw [hq]
          have h1 : pre.length + 8 + 16 + n.length = pre.length + 24 + n.length := by omega
          rw [h1]
          refine Nat.mod_eq_of_lt ?_
          have hle : recSize (Rec.fileData n c) ≤ (containerBytes (Rec.fileData n c :: rs)).length := by
            rw [hcb]; simp [serRec_length]
          simp [recSize] at hle
          unfold U32 at *; omega
        rw [hoff, hdo]
        have hq : (pre ++ hdr (16 + n.length + c.length) FILE_TAG).length =
            pre.length + 8 := by simp [hdr, le32]
        rw [hq]
        have hend : pre.length + 8 + 16 + n.length + c.length =
            pre.length + recSize (Rec.fileData n c) := by simp [recSize]; omega
        rw [hend]
      have hfile1 : (readFile (pre ++ containerBytes (Rec.fileData n c :: rs)) (pre.length + 8)
          (16 + n.length + c.length)).1
          = { name := n, size := c.length, offset := pre.length,
              dataOffset := pre.length + 24 + n.length, dataOffsetRef := 0 } := by rw [hrf]
      have hpos1 : (readFile (pre ++ containerBytes (Rec.fileData n c :: rs)) (pre.length + 8)
          (16 + n.length + c.length)).2.1
          = pre.length + recSize (Rec.fileData n c) := by rw [hrf]
      have hbad1 : (readFile (pre ++ containerBytes (Rec.fileData n c :: rs)) (pre.length + 8)
          (16 + n.length + c.length)).2.2 = false := by rw [hrf]
      rw [hbad1, hfile1, hpos1]
      rw [if_neg (by simp : ¬ ((false : Bool) = true))]
      have hdata2 : pre ++ containerBytes (Rec.fileData n c :: rs) =
          (pre ++ serRec (Rec.fileData n c)) ++ containerBytes rs := by
        rw [hcb]; simp
      have hstep : pre.length + recSize (Rec.fileData n c) =
          (pre ++ serRec (Rec.fileData n c)).length := hpre2.symm
      rw [hstep, hdata2, ih k (pre ++ serRec (Rec.fileData n c)) _ _ hwfs hfit2 (by
        simpa using Nat.le_of_succ_le_succ hfuel)]
      simp [dirNames, parseAll, parseRec, hpre2]
    | fileRef n rr =>
      have hnl : n.length < U32 := hwfr.1
      have hrl : 20 + n.length < U32 := hwfr.2.1
      have hrv : rr < U32 := hwfr.2.2
      have hel : readu32 (pre ++ containerBytes (Rec.fileRef n rr :: rs)) pre.length =
          20 + n.length := by
        rw [readu32_at _ pre (le32 FILE_TAG ++ (recPayload (Rec.fileRef n rr) ++ containerBytes rs))
          (20 + n.length)
          (by rw [hcb]; simp [serRec, recLen, recTag, hdr])]
        exact Nat.mod_eq_of_lt hrl
      have het : readu32 (pre ++ containerBytes (Rec.fileRef n rr :: rs)) (pre.length + 4) =
          FILE_TAG := by
        have h4 : pre.length + 4 = (pre ++ le32 (20 + n.length)).length := by simp [le32]
        rw [h4, readu32_at _ (pre ++ le32 (20 + n.length))
          (recPayload (Rec.fileRef n rr) ++ containerBytes rs) FILE_TAG
          (by rw [hcb]; simp [serRec, recLen, recTag, hdr])]
        decide
      simp only [hel, het]
      rw [if_neg (show ¬ (FILE_TAG = DIRECTORY_TAG) from by decide)]
      rw [if_pos trivial]
      have hrf : readFile (pre ++ containerBytes (Rec.fileRef n rr :: rs)) (pre.length + 8)
          (20 + n.length)
          = ({ name := n, size := 0, offset := pre.length,
               dataOffset := 0, dataOffsetRef := rr },
             pre.length + recSize (Rec.fileRef n rr), false) := by
        unfold readFile
        have h8 : pre.length + 8 = (pre ++ hdr (20 + n.length) FILE_TAG).length := by
          simp [hdr, le32]
        rw [h8]
        rw [rfLoop_fileRef _ (pre ++ hdr (20 + n.length) FILE_TAG) n
          (containerBytes rs) rr _ _ (by omega) hnl hrv
          (by rw [hcb]; simp [serRec, recPayload, recLen, recTag, hdr])]
        have hoff : ((pre ++ hdr (20 + n.length) FILE_TAG).length + U32 - 8) % U32
            = pre.length := by
          have hq : (pre ++ hdr (20 + n.length) FILE_TAG).length = pre.length + 8 := by
            simp [hdr, le32]
          rw [hq]
          have : pre.length + 8 + U32 - 8 = pre.length + U32 := by unfold U32; omega
          rw [this, Nat.add_mod_right]
          exact Nat.mod_eq_of_lt (by unfold U32 at *; omega)
        rw [hoff]
        have hq : (pre ++ hdr (20 + n.length) FILE_TAG).length = pre.length + 8 := by
          simp [hdr, le32]
        rw [hq]
        have hend : pre.length + 8 + 20 + n.length = pre.length + recSize (Rec.fileRef n rr) := by
          simp [recSize]; omega
        rw [hend]
      have hfile1 : (readFile (pre ++ containerBytes (Rec.fileRef n rr :: rs)) (pre.length + 8)
          (20 + n.length)).1
          = { name := n, size := 0, offset := pre.length,
              dataOffset := 0, dataOffsetRef := rr } := by rw [hrf]
      have hpos1 : (readFile (pre ++ containerBytes (Rec.fileRef n rr :: rs)) (pre.length + 8)
          (20 + n.length)).2.1
          = pre.length + recSize (Rec.fileRef n rr) := by rw [hrf]
      have hbad1 : (readFile (pre ++ containerBytes (Rec.fileRef n rr :: rs)) (pre.length + 8)
          (20 + n.length)).2.2 = false := by rw [hrf]
      rw [hbad1, hfile1, hpos1]
      rw [if_neg (by simp : ¬ ((false : Bool) = true))]
      have hdata2 : pre ++ containerBytes (Rec.fileRef n rr :: rs) =
          (pre ++ serRec (Rec.fileRef n rr)) ++ containerBytes rs := by
        rw [hcb]; simp
      have hstep : pre.length + recSize (Rec.fileRef n rr) =
          (pre ++ serRec (Rec.fileRef n rr)).length := hpre2.symm
      rw [hstep, hdata2, ih k (pre ++ serRec (Rec.fileRef n rr)) _ _ hwfs hfit2 (by
        simpa using Nat.le_of_succ_le_succ hfuel)]
      simp [dirNames, parseAll, parseRec, hpre2]

/-! ## Writer-side lemmas -/

/-- The loop of `compareFiles` accepts two identical contents (every chunk matches and
both streams reach EOF in the same read). -/
theorem cmpLoop_self : ∀ (fuel : Nat) (c : List Nat), c.length < fuel →
    cmpLoop fuel c c = true := by
  intro fuel
  induction fuel with
  | zero => intro c hc; omega
  | succ k ih =>
    intro c hc
    rw [cmpLoop]
    simp only [ne_eq, not_true_eq_false, or_self, if_neg, or_false, false_or]
    by_cases heof : c.length < CHUNK
    · simp [heof]
    · have hrec : (c.drop CHUNK).length < k := by
        simp only [List.length_drop]
        unfold CHUNK at *
        omega
      simp [heof, ih _ hrec]

theorem compareFiles_self (c : List Nat) : compareFiles c c = true :=
  cmpLoop_self (c.length + 1) c (Nat.lt_succ_self _)

/-- Looking a key up after an insert-or-overwrite. -/
theorem idxLookup_insert (k k2 : Nat) (v : IdxFile) :
    ∀ idx : List (Nat × IdxFile),
    idxLookup k (idxInsert k2 v idx) = if k2 = k then some v else idxLookup k idx := by
  intro idx
  induction idx with
  | nil =>
    simp [idxInsert, idxLookup]
  | cons p rest ih =>
    obtain ⟨k3, v3⟩ := p
    by_cases h32 : k3 = k2
    · subst h32
      rw [idxInsert, if_pos rfl]
      by_cases h3k : k3 = k
      · subst h3k
        simp [idxLookup]
      · rw [idxLookup, if_neg h3k, if_neg h3k, idxLookup, if_neg h3k]
    · rw [idxInsert, if_neg h32]
      by_cases h3k : k3 = k
      · have h2k : ¬ (k2 = k) := fun he => h32 (h3k.trans he.symm)
        rw [idxLookup, if_pos h3k, if_neg h2k, idxLookup, if_pos h3k]
      · rw [idxLookup, if_neg h3k, ih, idxLookup, if_neg h3k]

/-- The `create` walk when no file is ever deduplicated: if every upcoming
file content misses the current index and the upcoming contents have pairwise
distinct fingerprints, the walk appends exactly one record per openable entry
(DIR for directories, NAME+DATA FILE records for files). -/
theorem foldl_noDup (fp : List Nat → Nat) : ∀ (entries : List Entry) (st : WState),
    (∀ c ∈ fileContents entries, idxLookup (fp c) st.index = none) →
    (fileContents entries).Pairwise (fun a b => fp a ≠ fp b) →
    (entries.foldl (stepEntry fp) st).recs = st.recs ++ entries.filterMap toRec := by
  intro entries
  induction entries with
  | nil => intro st _ _; simp
  | cons e es ih =>
    intro st hnew hpw
    cases e with
    | dir n =>
      have hfc : fileContents (Entry.dir n :: es) = fileContents es := by
        simp [fileContents]
      rw [hfc] at hnew hpw
      rw [List.foldl_cons]
      rw [ih (stepEntry fp st (Entry.dir n)) (by simpa [stepEntry, addDirectory] using hnew) hpw]
      simp [stepEntry, addDirectory, toRec]
    | file n oc =>
      cases oc with
      | none =>
        have hfc : fileContents (Entry.file n none :: es) = fileContents es := by
          simp [fileContents]
        rw [hfc] at hnew hpw
        rw [List.foldl_cons]
        rw [ih (stepEntry fp st (Entry.file n none))
          (by simpa [stepEntry, addFile] using hnew) hpw]
        simp [stepEntry, addFile, toRec]
      | some c =>
        have hfc : fileContents (Entry.file n (some c) :: es) = c :: fileContents es := by
          simp [fileContents]
        rw [hfc] at hnew hpw
        have hc0 : idxLookup (fp c) st.index = none :=
          hnew c (List.mem_cons_self c _)
        have hfd : findDuplicate fp st.index c = none := by
          unfold findDuplicate
          rw [hc0]
        have hstep : stepEntry fp st (Entry.file n (some c)) =
            { st with recs := st.recs ++ [Rec.fileData n c],
                      pos := st.pos + recSize (Rec.fileData n c),
                      index := idxInsert (fp c) ⟨c, st.pos % U32⟩ st.index } := by
          simp [stepEntry, addFile, hfd]
        have hpwh := (List.pairwise_cons.mp hpw).1
        have hpwt := (List.pairwise_cons.mp hpw).2
        have hnew2 : ∀ c2 ∈ fileContents es,
            idxLookup (fp c2) (idxInsert (fp c) ⟨c, st.pos % U32⟩ st.index) = none := by
          intro c2 hc2
          rw [idxLookup_insert]
          rw [if_neg (hpwh c2 hc2)]
          exact hnew c2 (List.mem_cons_of_mem c hc2)
        rw [List.foldl_cons, hstep]
        rw [ih _ (by simpa using hnew2) hpwt]
        simp [toRec]

/-- A directory-only prefix of the walk: DIR records are appended, the
position advances, and the index and error count are untouched. -/
theorem foldl_dirs (fp : List Nat → Nat) : ∀ (ds : List (List Nat)) (st : WState),
    (ds.map Entry.dir).foldl (stepEntry fp) st
      = { st with recs := st.recs ++ ds.map Rec.dir,
                  pos := st.pos + (ds.map (fun n => recSize (Rec.dir n))).sum } := by
  intro ds
  induction ds with
  | nil => intro st; simp
  | cons d rest ih =>
    intro st
    simp only [List.map_cons, List.foldl_cons, stepEntry, addDirectory]
    rw [ih]
    simp
    omega

/-- Every record's size is bounded by the container size. -/
theorem recSize_le_total : ∀ (recs : List Rec) (r : Rec), r ∈ recs →
    recSize r ≤ (containerBytes recs).length := by
  intro recs
  induction recs with
  | nil => intro r hr; simp at hr
  | cons hd tl ih =>
    intro r hr
    rw [containerBytes_cons]
    simp only [List.length_append, serRec_length]
    rcases List.mem_cons.mp hr with h | h
    · subst h; omega
    · have := ih r h; omega

/-- A container holds at least as many bytes as it has records
(each record is at least 8 bytes). -/
theorem length_le_totalBytes : ∀ recs : List Rec,
    recs.length ≤ (containerBytes recs).length := by
  intro recs
  induction recs with
  | nil => simp
  | cons hd tl ih =>
    rw [containerBytes_cons]
    simp only [List.length_cons, List.length_append, serRec_length]
    have := recSize_pos hd
    omega

/-- The key set of the reader's table is exactly the FILE record offsets. -/
theorem parseAll_offset_mem : ∀ (recs : List Rec) (q : Nat) (t : RFile),
    t ∈ parseAll q recs → t.offset ∈ filePositions q recs := by
  intro recs
  induction recs with
  | nil => intro q t ht; simp [parseAll] at ht
  | cons r rs ih =>
    intro q t ht
    cases r with
    | dir n =>
      rw [parseAll] at ht
      simp only [parseRec, Option.toList_none, List.nil_append] at ht
      rw [filePositions]
      exact ih _ t ht
    | fileData n c =>
      rw [parseAll] at ht
      simp only [parseRec, Option.toList_some, List.singleton_append] at ht
      rw [filePositions]
      rcases List.mem_cons.mp ht with h | h
      · subst h; exact List.mem_cons_self _ _
      · exact List.mem_cons_of_mem _ (ih _ t h)
    | fileRef n rr =>
      rw [parseAll] at ht
      simp only [parseRec, Option.toList_some, List.singleton_append] at ht
      rw [filePositions]
      rcases List.mem_cons.mp ht with h | h
      · subst h; exact List.mem_cons_self _ _
      · exact List.mem_cons_of_mem _ (ih _ t h)

/-- Behaviour of `extractFiles` over the table of a parsed record suffix, when every
DATA_REF record in the suffix is nonzero and dangling (its offset matches no
table key): each original-content record is written out with exactly its
content bytes and no error; each dangling reference is reported and skipped. -/
theorem extractGo_parse (data : List Nat) (table : List RFile) :
    ∀ (recs2 : List Rec) (pre rest : List Nat),
    data = pre ++ (containerBytes recs2 ++ rest) →
    (∀ n r, Rec.fileRef n r ∈ recs2 → r ≠ 0 ∧ ∀ t ∈ table, ¬ (t.offset = r)) →
    extractFilesGo data table (parseAll pre.length recs2)
      = ⟨dataOutputs recs2, refNames recs2, []⟩ := by
  intro recs2
  induction recs2 with
  | nil =>
    intro pre rest _ _
    simp [parseAll, extractFilesGo, dataOutputs, refNames]
  | cons r rs ih =>
    intro pre rest hdata hrefs
    have hdata2 : data = (pre ++ serRec r) ++ (containerBytes rs ++ rest) := by
      rw [hdata, containerBytes_cons]; simp
    have hq2 : (pre ++ serRec r).length = pre.length + recSize r := by
      simp [serRec_length]
    have hrefs2 : ∀ n rr, Rec.fileRef n rr ∈ rs → rr ≠ 0 ∧
        ∀ t ∈ table, ¬ (t.offset = rr) := fun n rr h =>
      hrefs n rr (List.mem_cons_of_mem r h)
    cases r with
    | dir n =>
      rw [parseAll]
      simp only [parseRec, Option.toList_none, List.nil_append]
      have := ih (pre ++ serRec (Rec.dir n)) rest hdata2 hrefs2
      rw [hq2] at this
      rw [this]
      simp [dataOutputs, refNames]
    | fileData n c =>
      rw [parseAll]
      simp only [parseRec, Option.toList_some, List.singleton_append]
      rw [extractFilesGo]
      have hacc := ih (pre ++ serRec (Rec.fileData n c)) rest hdata2 hrefs2
      rw [hq2] at hacc
      have hslice : slice data (pre.length + 24 + n.length) c.length = c := by
        have hp : pre.length + 24 + n.length =
            (pre ++ (hdr (recLen (Rec.fileData n c)) (recTag (Rec.fileData n c)) ++
              (hdr n.length NAME_TAG ++ n ++ hdr c.length DATA_TAG))).length := by
          simp [hdr, le32]
          omega
        rw [hp, slice_at _ _ c (containerBytes rs ++ rest)]
        rw [hdata, containerBytes_cons]
        simp [serRec, recPayload]
      rw [hacc]
      simp [hslice, dataOutputs, refNames]
    | fileRef n rr =>
      rw [parseAll]
      simp only [parseRec, Option.toList_some, List.singleton_append]
      rw [extractFilesGo]
      have hacc := ih (pre ++ serRec (Rec.fileRef n rr)) rest hdata2 hrefs2
      rw [hq2] at hacc
      have hr := hrefs n rr (List.mem_cons_self _ _)
      have hfind : List.find? (fun t => decide (t.offset = rr)) table = none := by
        apply List.find?_eq_none.mpr
        intro t ht
        simp only [decide_eq_true_eq]
        exact hr.2 t ht
      rw [hacc]
      simp [hr.1, hfind, dataOutputs, refNames]

/-! ## Glue lemmas between tree views and record views -/

/-- A walk without duplicates never emits a DATA_REF record. -/
theorem toRec_no_fileRef : ∀ (entries : List Entry) (n : List Nat) (r : Nat),
    Rec.fileRef n r ∉ entries.filterMap toRec := by
  intro entries n r hmem
  rcases List.mem_filterMap.mp hmem with ⟨e, _, he⟩
  cases e with
  | dir d => simp [toRec] at he
  | file d oc => cases oc <;> simp [toRec] at he

/-- The original-content records of a duplicate-free walk list exactly the
tree's files. -/
theorem dataOutputs_toRec : ∀ entries : List Entry,
    dataOutputs (entries.filterMap toRec) = entryFiles entries := by
  intro entries
  induction entries with
  | nil => simp [dataOutputs, entryFiles]
  | cons e es ih =>
    cases e with
    | dir d => simpa [dataOutputs, entryFiles, toRec] using ih
    | file d oc =>
      cases oc with
      | none => simpa [dataOutputs, entryFiles, toRec] using ih
      | some c => simpa [dataOutputs, entryFiles, toRec] using ih

/-- The DIR records of a duplicate-free walk list exactly the tree's
directories. -/
theorem dirNames_toRec : ∀ entries : List Entry,
    dirNames (entries.filterMap toRec) = entryDirs entries := by
  intro entries
  induction entries with
  | nil => simp [dirNames, entryDirs]
  | cons e es ih =>
    cases e with
    | dir d => simpa [dirNames, entryDirs, toRec] using ih
    | file d oc =>
      cases oc with
      | none => simpa [dirNames, entryDirs, toRec] using ih
      | some c => simpa [dirNames, entryDirs, toRec] using ih

/-- A container that fits in 32 bits has well-formed records (for DATA_REF
payloads the bound is supplied separately, since the stored offset is data,
not layout). -/
theorem wf_of_fit (recs : List Rec) (hfit : (containerBytes recs).length < U32)
    (href : ∀ n r, Rec.fileRef n r ∈ recs → r < U32) :
    ∀ r ∈ recs, wfRec r := by
  intro r hr
  have hle := recSize_le_total recs r hr
  cases r with
  | dir n => simp only [recSize] at hle; simp only [wfRec]; omega
  | fileData n c =>
    simp only [recSize] at hle
    refine ⟨by omega, by omega, by omega⟩
  | fileRef n rr =>
    simp only [recSize] at hle
    exact ⟨by omega, by omega, href n rr hr⟩

/-! ## Partial-failure tolerance of the walk (unopenable files) -/

/-- The error count after a walk: one report per unopenable file. -/
theorem foldl_errors (fp : List Nat → Nat) : ∀ (entries : List Entry) (st : WState),
    (entries.foldl (stepEntry fp) st).errors
      = st.errors + entries.countP entryUnopenable := by
  intro entries
  induction entries with
  | nil => intro st; simp
  | cons e es ih =>
    intro st
    rw [List.foldl_cons, ih]
    cases e with
    | dir n => simp [stepEntry, addDirectory, entryUnopenable, List.countP_cons]
    | file n oc =>
      cases oc with
      | none => simp [stepEntry, addFile, entryUnopenable, List.countP_cons]; omega
      | some c =>
        cases hfd : findDuplicate fp st.index c <;>
          simp [stepEntry, addFile, hfd, entryUnopenable, List.countP_cons]

/-- One step on two states that agree on everything but the error count
produces states that again agree on everything but the error count. -/
theorem step_proj (fp : List Nat → Nat) (st st' : WState) (e : Entry)
    (h1 : st.recs = st'.recs) (h2 : st.pos = st'.pos) (h3 : st.index = st'.index) :
    (stepEntry fp st e).recs = (stepEntry fp st' e).recs
    ∧ (stepEntry fp st e).pos = (stepEntry fp st' e).pos
    ∧ (stepEntry fp st e).index = (stepEntry fp st' e).index := by
  cases e with
  | dir n => simp [stepEntry, addDirectory, h1, h2, h3]
  | file n oc =>
    cases oc with
    | none => simp [stepEntry, addFile, h1, h2, h3]
    | some c =>
      cases hfd : findDuplicate fp st'.index c <;>
        simp [stepEntry, addFile, h3, hfd, h1, h2]

/-- Unopenable files contribute nothing to the walk except an error report:
the walk over a tree and the walk over its openable entries agree on the
emitted records, the stream position, and the fingerprint index. -/
theorem foldl_skip_unopenable (fp : List Nat → Nat) :
    ∀ (entries : List Entry) (st st' : WState),
    st.recs = st'.recs → st.pos = st'.pos → st.index = st'.index →
    (entries.foldl (stepEntry fp) st).recs
        = ((entries.filter fun e => !entryUnopenable e).foldl (stepEntry fp) st').recs
    ∧ (entries.foldl (stepEntry fp) st).pos
        = ((entries.filter fun e => !entryUnopenable e).foldl (stepEntry fp) st').pos
    ∧ (entries.foldl (stepEntry fp) st).index
        = ((entries.filter fun e => !entryUnopenable e).foldl (stepEntry fp) st').index := by
  intro entries
  induction entries with
  | nil => intro st st' h1 h2 h3; simpa using ⟨h1, h2, h3⟩
  | cons e es ih =>
    intro st st' h1 h2 h3
    by_cases hop : entryUnopenable e = true
    · obtain ⟨n, rfl⟩ : ∃ n, e = Entry.file n none := by
        cases e with
        | dir d => simp [entryUnopenable] at hop
        | file d oc =>
          cases oc with
          | none => exact ⟨d, rfl⟩
          | some c => simp [entryUnopenable] at hop
      rw [List.foldl_cons]
      have hfil : (Entry.file n none :: es).filter (fun e => !entryUnopenable e)
          = es.filter fun e => !entryUnopenable e := by
        simp [List.filter_cons, entryUnopenable]
      rw [hfil]
      exact ih (stepEntry fp st (Entry.file n none)) st'
        (by simpa [stepEntry, addFile] using h1)
        (by simpa [stepEntry, addFile] using h2)
        (by simpa [stepEntry, addFile] using h3)
    · rw [List.foldl_cons]
      have hfil : (e :: es).filter (fun e => !entryUnopenable e)
          = e :: es.filter fun e => !entryUnopenable e := by
        simp [List.filter_cons, hop]
      rw [hfil, List.foldl_cons]
      obtain ⟨p1, p2, p3⟩ := step_proj fp st st' e h1 h2 h3
      exact ih _ _ p1 p2 p3

/-- A duplicate-free walk reports no dangling references at extraction. -/
theorem refNames_toRec : ∀ entries : List Entry,
    refNames (entries.filterMap toRec) = [] := by
  intro entries
  induction entries with
  | nil => simp [refNames]
  | cons e es ih =>
    cases e with
    | dir d => simpa [refNames, toRec] using ih
    | file d oc =>
      cases oc with
      | none => simpa [refNames, toRec] using ih
      | some c => simpa [refNames, toRec] using ih

/-! ## Claim theorems -/

/-- Claim C1 (amended).  Round-trip identity: for every directory tree with no
duplicate file contents *whose distinct contents also receive pairwise
distinct fingerprints from the pluggable digest*, extracting the container
written by `create` into a fresh output root reproduces the tree exactly:
the same relative directory paths (including empty directories), the same
relative file paths with byte-identical contents, and no extraction errors.
(The fingerprint proviso is forced by `claim_C1_counterexample`: the defective
byte-for-byte verification in `compareFiles` lets a fingerprint collision
falsely deduplicate a distinct file.)  The container is assumed to fit in
32 bits, matching the `uint32_t` offsets of the format. -/
theorem claim_C1_roundtrip (fp : List Nat → Nat) (entries : List Entry)
    (hopen : ∀ e ∈ entries, entryUnopenable e = false)
    (hfp : (fileContents entries).Pairwise fun a b => fp a ≠ fp b)
    (hfit : (container fp entries).length < U32) :
    extract (container fp entries)
      = (entryDirs entries, ⟨entryFiles entries, [], []⟩) := by
  have hrecs : (createWalk fp entries).recs = entries.filterMap toRec := by
    have h := foldl_noDup fp entries ⟨[], 0, [], 0⟩ (fun c _ => rfl) hfp
    simpa [createWalk] using h
  have hcont : container fp entries = containerBytes (entries.filterMap toRec) := by
    unfold container
    rw [hrecs]
  have hfit2 : (containerBytes (entries.filterMap toRec)).length < U32 := by
    rw [← hcont]; exact hfit
  have hnoref : ∀ n r, Rec.fileRef n r ∈ entries.filterMap toRec → r < U32 :=
    fun n r h => absurd h (toRec_no_fileRef entries n r)
  have hwf := wf_of_fit (entries.filterMap toRec) hfit2 hnoref
  have hparse := exLoop_parse (entries.filterMap toRec)
    (containerBytes (entries.filterMap toRec)).length [] [] [] hwf
    (by simpa using hfit2) (length_le_totalBytes _)
  simp only [List.nil_append, List.length_nil] at hparse
  have hrefs : ∀ (n : List Nat) (r : Nat),
      Rec.fileRef n r ∈ entries.filterMap toRec → r ≠ 0 ∧
        ∀ t ∈ parseAll 0 (entries.filterMap toRec), ¬ (t.offset = r) :=
    fun n r h => absurd h (toRec_no_fileRef entries n r)
  have hextr := extractGo_parse (containerBytes (entries.filterMap toRec))
    (parseAll 0 (entries.filterMap toRec)) (entries.filterMap toRec) [] []
    (by simp) hrefs
  simp only [List.length_nil] at hextr
  rw [hcont]
  unfold extract extractFiles
  rw [hparse]
  simp only
  rw [hextr]
  rw [dataOutputs_toRec, dirNames_toRec, refNames_toRec]

/-- Witness for C1: a tree with one directory and two distinct files, a
digest separating them, round-trips exactly. -/
theorem claim_C1_roundtrip_witness :
    extract (container headFp okEntries)
      = (entryDirs okEntries, ⟨entryFiles okEntries, [], []⟩) :=
  claim_C1_roundtrip headFp okEntries (by decide) (by decide) (by decide)

/-- Claim C1 counterexample.  The claim as stated (round-trip for *every* tree
with no duplicate file contents, for *any* pluggable digest) is false: with a
constant digest, the tree with files `"a" = [0]` and `"b" = [1]` (distinct
contents) archives `"b"` as a DATA_REF — `compareFiles` wrongly accepts the
mismatching candidate — and extraction yields an empty `"b"`. -/
theorem claim_C1_counterexample :
    (fileContents c1Entries).Pairwise (fun a b => a ≠ b)
    ∧ (extract (container constFp c1Entries)).2.outputs = [([97], [0]), ([98], [])]
    ∧ entryFiles c1Entries = [([97], [0]), ([98], [1])]
    ∧ (extract (container constFp c1Entries)).2.outputs ≠ entryFiles c1Entries := by
  refine ⟨by decide, by decide, by decide, by decide⟩

/-- Container size is the sum of the record sizes. -/
theorem containerBytes_length : ∀ recs : List Rec,
    (containerBytes recs).length = (recs.map recSize).sum := by
  intro recs
  induction recs with
  | nil => simp [containerBytes]
  | cons r rs ih =>
    rw [containerBytes_cons]
    simp [serRec_length, ih]

/-- DIR records contribute no table entries; they only advance the offset. -/
theorem parseAll_afterDirs : ∀ (ds : List (List Nat)) (q : Nat) (rest : List Rec),
    parseAll q (ds.map Rec.dir ++ rest) = parseAll (q + dirsSize ds) rest := by
  intro ds
  induction ds with
  | nil => intro q rest; simp [dirsSize]
  | cons d dt ih =>
    intro q rest
    simp only [List.map_cons, List.cons_append, parseAll, parseRec,
      Option.toList_none, List.nil_append, List.append_eq]
    rw [ih]
    have : q + recSize (Rec.dir d) + dirsSize dt = q + dirsSize (d :: dt) := by
      simp [dirsSize]; omega
    rw [this]

/-- FILE record offsets after a DIR-record prefix. -/
theorem filePositions_afterDirs : ∀ (ds : List (List Nat)) (q : Nat) (rest : List Rec),
    filePositions q (ds.map Rec.dir ++ rest) = filePositions (q + dirsSize ds) rest := by
  intro ds
  induction ds with
  | nil => intro q rest; simp [dirsSize]
  | cons d dt ih =>
    intro q rest
    simp only [List.map_cons, List.cons_append, filePositions, List.append_eq]
    rw [ih]
    have : q + recSize (Rec.dir d) + dirsSize dt = q + dirsSize (d :: dt) := by
      simp [dirsSize]; omega
    rw [this]

/-- Writer characterization for the deduplication pair: the first file is
written as original content and indexed; the second hits the index, passes
`compareFiles` (identical bytes), and is written as a DATA_REF whose payload
is the first file's (`uint32_t`-cast) entry offset. -/
theorem createWalk_pair (fp : List Nat → Nat) (ds : List (List Nat)) (na nb c : List Nat) :
    (createWalk fp (pairEntries ds na nb c)).recs
      = ds.map Rec.dir ++ [Rec.fileData na c, Rec.fileRef nb (dirsSize ds % U32)] := by
  unfold createWalk pairEntries
  rw [List.foldl_append, foldl_dirs]
  have hdsz : (ds.map fun n => recSize (Rec.dir n)).sum = dirsSize ds := rfl
  simp only [List.foldl_cons, List.foldl_nil, List.nil_append, Nat.zero_add, hdsz]
  have h1 : findDuplicate fp ([] : List (Nat × IdxFile)) c = none := rfl
  have hstep1 : stepEntry fp
      { recs := ds.map Rec.dir, pos := dirsSize ds, index := [], errors := 0 }
      (Entry.file na (some c))
      = { recs := ds.map Rec.dir ++ [Rec.fileData na c],
          pos := dirsSize ds + recSize (Rec.fileData na c),
          index := [(fp c, ⟨c, dirsSize ds % U32⟩)], errors := 0 } := by
    simp [stepEntry, addFile, h1, idxInsert]
  rw [hstep1]
  have h2 : findDuplicate fp [(fp c, (⟨c, dirsSize ds % U32⟩ : IdxFile))] c
      = some ⟨c, dirsSize ds % U32⟩ := by
    unfold findDuplicate
    rw [idxLookup, if_pos rfl]
    simp [compareFiles_self]
  simp [stepEntry, addFile, h2]

/-- Claim C2 (amended).  Deduplication of a byte-identical pair, for any tree of
directories followed by files A and B with the same content `c`, any digest,
and a container below 4 GiB: the walk emits exactly one DATA sub-record
carrying `c` (inside A's FILE record) and exactly one DATA_REF sub-record,
whose 4-byte payload equals the entry offset of A's FILE record (the first
entry of `filePositions`); and — *provided A's record does not start at
container offset 0* (here guaranteed by at least one preceding directory
record; forced by `claim_C2_counterexample`, since a zero offset collides
with the extractor's zero sentinel) — extraction reproduces both A and B with
bytes identical to `c`. -/
theorem claim_C2_amended (fp : List Nat → Nat) (ds : List (List Nat)) (na nb c : List Nat)
    (hds : ds ≠ [])
    (hfit : (container fp (pairEntries ds na nb c)).length < U32) :
    (createWalk fp (pairEntries ds na nb c)).recs
        = ds.map Rec.dir ++ [Rec.fileData na c, Rec.fileRef nb (dirsSize ds)]
    ∧ ((createWalk fp (pairEntries ds na nb c)).recs.countP fun r =>
        match r with | Rec.fileData _ c2 => decide (c2 = c) | _ => false) = 1
    ∧ ((createWalk fp (pairEntries ds na nb c)).recs.filterMap fun r =>
        match r with | Rec.fileRef _ p => some p | _ => none) = [dirsSize ds]
    ∧ filePositions 0 (createWalk fp (pairEntries ds na nb c)).recs
        = [dirsSize ds, dirsSize ds + recSize (Rec.fileData na c)]
    ∧ extract (container fp (pairEntries ds na nb c))
        = (ds, ⟨[(na, c), (nb, c)], [], []⟩) := by
  have hrecs0 := createWalk_pair fp ds na nb c
  have hlen : (container fp (pairEntries ds na nb c)).length
      = dirsSize ds + recSize (Rec.fileData na c) + recSize (Rec.fileRef nb 0) := by
    unfold container
    rw [hrecs0, containerBytes_length]
    rw [List.map_append, List.map_map, List.sum_append]
    have hcomp : List.map (recSize ∘ Rec.dir) ds = List.map (fun n => recSize (Rec.dir n)) ds :=
      rfl
    rw [hcomp]
    have hsum : ((ds.map fun n => recSize (Rec.dir n)).sum) = dirsSize ds := rfl
    rw [hsum]
    simp [recSize]
    omega
  have hq : dirsSize ds < U32 := by
    have := recSize_pos (Rec.fileData na c)
    omega
  have hqm : dirsSize ds % U32 = dirsSize ds := Nat.mod_eq_of_lt hq
  have hrecs : (createWalk fp (pairEntries ds na nb c)).recs
      = ds.map Rec.dir ++ [Rec.fileData na c, Rec.fileRef nb (dirsSize ds)] := by
    rw [hrecs0, hqm]
  have hq0 : dirsSize ds ≠ 0 := by
    obtain ⟨d, dt, rfl⟩ : ∃ d dt, ds = d :: dt := by
      cases ds with
      | nil => exact absurd rfl hds
      | cons d dt => exact ⟨d, dt, rfl⟩
    simp [dirsSize, recSize]
  refine ⟨hrecs, ?_, ?_, ?_, ?_⟩
  · rw [hrecs]
    simp only [List.countP_append, List.countP_cons]
    have hz : (ds.map Rec.dir).countP (fun r =>
        match r with | Rec.fileData _ c2 => decide (c2 = c) | _ => false) = 0 := by
      refine List.countP_eq_zero.mpr ?_
      intro r hrm
      rcases List.mem_map.mp hrm with ⟨d, _, rfl⟩
      simp
    rw [hz]
    simp
  · rw [hrecs]
    simp
  · rw [hrecs, filePositions_afterDirs]
    simp only [filePositions, Nat.zero_add]
  · -- extraction
    have hcont : container fp (pairEntries ds na nb c)
        = containerBytes (ds.map Rec.dir ++ [Rec.fileData na c, Rec.fileRef nb (dirsSize ds)]) := by
      unfold container
      rw [hrecs]
    have hfit2 : (containerBytes (ds.map Rec.dir ++
        [Rec.fileData na c, Rec.fileRef nb (dirsSize ds)])).length < U32 := by
      rw [← hcont]; exact hfit
    have hwf := wf_of_fit _ hfit2 (by
      intro n r hmem
      rcases List.mem_append.mp hmem with h | h
      · rcases List.mem_map.mp h with ⟨d, _, hd⟩
        cases hd
      · rcases List.mem_cons.mp h with h | h
        · cases h
        · rcases List.mem_cons.mp h with h | h
          · cases h; exact hq
          · simp at h)
    have hparse := exLoop_parse (ds.map Rec.dir ++ [Rec.fileData na c, Rec.fileRef nb (dirsSize ds)])
      (containerBytes (ds.map Rec.dir ++ [Rec.fileData na c, Rec.fileRef nb (dirsSize ds)])).length
      [] [] [] hwf (by simpa using hfit2) (length_le_totalBytes _)
    simp only [List.nil_append, List.length_nil] at hparse
    have htable : parseAll 0 (ds.map Rec.dir ++ [Rec.fileData na c, Rec.fileRef nb (dirsSize ds)])
        = [⟨na, c.length, dirsSize ds, dirsSize ds + 24 + na.length, 0⟩,
           ⟨nb, 0, dirsSize ds + recSize (Rec.fileData na c), 0, dirsSize ds⟩] := by
      rw [parseAll_afterDirs]
      simp [parseAll, parseRec]
    have hdirs : dirNames (ds.map Rec.dir ++ [Rec.fileData na c, Rec.fileRef nb (dirsSize ds)])
        = ds := by
      unfold dirNames
      rw [List.filterMap_append, List.filterMap_map]
      have hfun : ((fun r => match r with | Rec.dir n => some n | _ => none) ∘ Rec.dir)
          = fun n => some n := rfl
      rw [hfun]
      simp
    have hslice : slice
        (containerBytes (ds.map Rec.dir ++ [Rec.fileData na c, Rec.fileRef nb (dirsSize ds)]))
        (dirsSize ds + 24 + na.length) c.length = c := by
      have hsplit : containerBytes (ds.map Rec.dir ++ [Rec.fileData na c, Rec.fileRef nb (dirsSize ds)])
          = (containerBytes (ds.map Rec.dir) ++
              (hdr (recLen (Rec.fileData na c)) (recTag (Rec.fileData na c)) ++
               (hdr na.length NAME_TAG ++ na ++ hdr c.length DATA_TAG)))
            ++ (c ++ serRec (Rec.fileRef nb (dirsSize ds))) := by
        rw [containerBytes_append, containerBytes_cons, containerBytes_cons]
        simp [containerBytes, serRec, recPayload]
      have hplen : (containerBytes (ds.map Rec.dir) ++
          (hdr (recLen (Rec.fileData na c)) (recTag (Rec.fileData na c)) ++
           (hdr na.length NAME_TAG ++ na ++ hdr c.length DATA_TAG))).length
          = dirsSize ds + 24 + na.length := by
        rw [List.length_append, containerBytes_length, List.map_map]
        have hcomp : List.map (recSize ∘ Rec.dir) ds
            = List.map (fun n => recSize (Rec.dir n)) ds := rfl
        rw [hcomp]
        have hsum : ((ds.map fun n => recSize (Rec.dir n)).sum) = dirsSize ds := rfl
        rw [hsum]
        simp [hdr, le32]
        omega
      rw [← hplen]
      exact slice_at _ _ c _ (by rw [hsplit])
    have hfind : List.find? (fun t => decide (t.offset = dirsSize ds))
        [(⟨na, c.length, dirsSize ds, dirsSize ds + 24 + na.length, 0⟩ : RFile),
         ⟨nb, 0, dirsSize ds + recSize (Rec.fileData na c), 0, dirsSize ds⟩]
        = some ⟨na, c.length, dirsSize ds, dirsSize ds + 24 + na.length, 0⟩ := by
      refine List.find?_cons_of_pos _ ?_
      simp
    rw [hcont]
    unfold extract extractFiles
    rw [hparse]
    simp only
    rw [htable, hdirs]
    rw [extractFilesGo, extractFilesGo, extractFilesGo]
    simp [hfind, hslice, hq0]

/-- Witness for C2: one directory, two files with content `[7]`. -/
theorem claim_C2_amended_witness :
    (createWalk constFp (pairEntries [[100]] [97] [98] [7])).recs
        = [[100]].map Rec.dir ++ [Rec.fileData [97] [7], Rec.fileRef [98] (dirsSize [[100]])]
    ∧ ((createWalk constFp (pairEntries [[100]] [97] [98] [7])).recs.countP fun r =>
        match r with | Rec.fileData _ c2 => decide (c2 = [7]) | _ => false) = 1
    ∧ ((createWalk constFp (pairEntries [[100]] [97] [98] [7])).recs.filterMap fun r =>
        match r with | Rec.fileRef _ p => some p | _ => none) = [dirsSize [[100]]]
    ∧ filePositions 0 (createWalk constFp (pairEntries [[100]] [97] [98] [7])).recs
        = [dirsSize [[100]], dirsSize [[100]] + recSize (Rec.fileData [97] [7])]
    ∧ extract (container constFp (pairEntries [[100]] [97] [98] [7]))
        = ([[100]], ⟨[([97], [7]), ([98], [7])], [], []⟩) :=
  claim_C2_amended constFp [[100]] [97] [98] [7] (by decide) (by decide)

/-- Claim C2 counterexample.  The claim as stated fails when the DATA-owning
FILE record begins at container offset 0: for the two-file tree with no
directories, the writer emits the correct container (one DATA, one DATA_REF
whose payload 0 equals A's entry offset), but extraction does not reproduce
B — the zero reference offset is taken for "no reference" and B comes out
empty. -/
theorem claim_C2_counterexample :
    (createWalk constFp c2Entries).recs = [Rec.fileData [97] [1], Rec.fileRef [98] 0]
    ∧ (extract (container constFp c2Entries)).2.outputs = [([97], [1]), ([98], [])]
    ∧ (extract (container constFp c2Entries)).2.outputs ≠ [([97], [1]), ([98], [1])] := by
  refine ⟨by decide, by decide, by decide⟩

/-- Claim C3 (code bug).  The duplicate lookup does *not* reject a fingerprint
collision between two same-length files with different bytes:
`compareFiles` detects the mismatch, closes both streams — but does not
return, and its final `eof()` check then reports equality.  Consequently
`findDuplicate` accepts the mismatching candidate and `create` (with the
digest stubbed to collide, as in spec §8) archives the second file as a
DATA_REF instead of original DATA. -/
theorem claim_C3_bug_evidence :
    compareFiles [97] [98] = true
    ∧ findDuplicate constFp [(0, ⟨[97], 0⟩)] [98] = some ⟨[97], 0⟩
    ∧ (createWalk constFp [Entry.file [97] (some [97]), Entry.file [98] (some [98])]).recs
        = [Rec.fileData [97] [97], Rec.fileRef [98] 0] := by
  refine ⟨by decide, by decide, by decide⟩

/-- The reader decodes the 8-byte header as the length field at offset 0 and
the tag field at offset 4 (matching the field order of `TlvEntry`). -/
theorem header_decode (r : Rec) (rest : List Nat) (h : wfRec r) :
    readu32 (serRec r ++ rest) 0 = recLen r
    ∧ readu32 (serRec r ++ rest) 4 = recTag r := by
  have hshape : serRec r ++ rest
      = le32 (recLen r) ++ (le32 (recTag r) ++ (recPayload r ++ rest)) := by
    simp [serRec, hdr]
  have hL : recLen r < U32 := by
    cases r with
    | dir n => exact h
    | fileData n c => have := h.2.2; simp only [recLen]; omega
    | fileRef n rr => have := h.2.1; simp only [recLen]; omega
  have hT : recTag r % U32 = recTag r := by
    cases r <;> simp only [recTag] <;> decide
  constructor
  · have h0 := readu32_at (serRec r ++ rest) []
      (le32 (recTag r) ++ (recPayload r ++ rest)) (recLen r) (by simpa using hshape)
    simpa [Nat.mod_eq_of_lt hL] using h0
  · have h4 : (4 : Nat) = (le32 (recLen r)).length := by simp [le32]
    rw [h4, readu32_at (serRec r ++ rest) (le32 (recLen r))
      (recPayload r ++ rest) (recTag r) (by simpa using hshape)]
    exact hT

/-- Claim C4 counterexample.  The header is not tag-first: the first four bytes
of a serialized DIR record for path `"a"` are the little-endian length (1),
not the tag. -/
theorem claim_C4_counterexample :
    (serRec (Rec.dir [97])).take 8 = le32 1 ++ le32 DIRECTORY_TAG
    ∧ (serRec (Rec.dir [97])).take 8 ≠ le32 DIRECTORY_TAG ++ le32 1 := by
  refine ⟨by decide, by decide⟩

/-- Claim C4 (amended).  TLV header layout: for every record the writer emits
and the reader decodes, the fixed 8-byte header consists of the 4-byte
*length* field first, followed by the 4-byte *tag* field — the field order of
the packed `TlvEntry` struct — and the reader decodes the length at header
offset 0 and the tag at header offset 4, consistently with the writer. -/
theorem claim_C4_amended (r : Rec) (rest : List Nat) (h : wfRec r) :
    serRec r = le32 (recLen r) ++ (le32 (recTag r) ++ recPayload r)
    ∧ readu32 (serRec r ++ rest) 0 = recLen r
    ∧ readu32 (serRec r ++ rest) 4 = recTag r :=
  ⟨by simp [serRec, hdr], (header_decode r rest h).1, (header_decode r rest h).2⟩

/-- Witness for C4. -/
theorem claim_C4_amended_witness :
    serRec (Rec.dir [97])
        = le32 (recLen (Rec.dir [97])) ++ (le32 (recTag (Rec.dir [97])) ++ recPayload (Rec.dir [97]))
    ∧ readu32 (serRec (Rec.dir [97]) ++ []) 0 = recLen (Rec.dir [97])
    ∧ readu32 (serRec (Rec.dir [97]) ++ []) 4 = recTag (Rec.dir [97]) :=
  claim_C4_amended (Rec.dir [97]) [] (by decide)

/-- Claim C5 (confirmed).  Writer length invariant: every record `create` emits
(32-bit representable, matching the `uint32_t` header fields) has a length
field that equals the exact number of payload bytes written after its header:
the decoded length field equals `(recPayload r).length`, and for FILE records
it equals the sum over the sub-records of `sizeof(TlvEntry) + sub-length`
(`getTlvSize`). -/
theorem claim_C5_length_invariant (fp : List Nat → Nat) (entries : List Entry)
    (r : Rec) (rest : List Nat)
    (hmem : r ∈ (createWalk fp entries).recs) (hwf : wfRec r) :
    serRec r = le32 (recLen r) ++ (le32 (recTag r) ++ recPayload r)
    ∧ (recPayload r).length = recLen r
    ∧ readu32 (serRec r ++ rest) 0 = (recPayload r).length
    ∧ (∀ n c, r = Rec.fileData n c → recLen r = (8 + n.length) + (8 + c.length))
    ∧ (∀ n rr, r = Rec.fileRef n rr → recLen r = (8 + n.length) + (8 + 4)) := by
  have hpl : (recPayload r).length = recLen r := by
    cases r <;> simp [recPayload, recLen, hdr, le32] <;> omega
  refine ⟨by simp [serRec, hdr], hpl, ?_, ?_, ?_⟩
  · rw [hpl]
    exact (header_decode r rest hwf).1
  · intro n c he
    subst he
    simp only [recLen]
    omega
  · intro n rr he
    subst he
    simp only [recLen]
    omega

/-- Witness for C5: the DIR record for `"d"` emitted by `create` over
`okEntries`. -/
theorem claim_C5_length_invariant_witness :
    serRec (Rec.dir [100])
        = le32 (recLen (Rec.dir [100])) ++ (le32 (recTag (Rec.dir [100])) ++ recPayload (Rec.dir [100]))
    ∧ (recPayload (Rec.dir [100])).length = recLen (Rec.dir [100])
    ∧ readu32 (serRec (Rec.dir [100]) ++ []) 0 = (recPayload (Rec.dir [100])).length
    ∧ (∀ n c, Rec.dir [100] = Rec.fileData n c →
        recLen (Rec.dir [100]) = (8 + n.length) + (8 + c.length))
    ∧ (∀ n rr, Rec.dir [100] = Rec.fileRef n rr →
        recLen (Rec.dir [100]) = (8 + n.length) + (8 + 4)) :=
  claim_C5_length_invariant headFp okEntries (Rec.dir [100]) [] (by decide) (by decide)

/-- Claim C6 counterexample.  Unrecognized sub-records are *not* skipped in the
stream: in `unkContainer` the FILE record spans bytes 0..27 (8-byte header +
19 payload bytes), but after `readFile` the stream stands at 25 — before the
unknown sub-record's 2 payload bytes — so the following DIR record for `"d"`
is misparsed and no directory is extracted. -/
theorem claim_C6_counterexample :
    (readFile unkContainer 8 19).2.1 = 25
    ∧ (readFile unkContainer 8 19).2.1 ≠ 8 + 19
    ∧ (extract unkContainer).1 = []
    ∧ (extract unkContainer).1 ≠ [[100]] := by
  refine ⟨by decide, by decide, by decide, by decide⟩

/-- Claim C6 (amended).  Decoding of a FILE record's payload is bounded by the
outer record's declared length (the loop accounts `sizeof(TlvEntry)
 + sub-length` for every sub-record, recognized or not), but the stream is
left positioned at the next top-level record — so that subsequent records
decode correctly — only when every sub-record is recognized.  For the two
payload shapes the writer emits (NAME+DATA and NAME+DATA_REF) `readFile`
consumes exactly the declared payload and ends at the record boundary; an
unrecognized sub-record's payload bytes are counted but not consumed
(`claim_C6_counterexample`). -/
theorem claim_C6_amended :
    (∀ (data pre n c rest : List Nat),
      n.length < U32 → c.length < U32 →
      data = pre ++ (recPayload (Rec.fileData n c) ++ rest) →
      readFile data pre.length (recLen (Rec.fileData n c))
        = ({ name := n, size := c.length, offset := (pre.length + U32 - 8) % U32,
             dataOffset := (pre.length + 16 + n.length) % U32, dataOffsetRef := 0 },
           pre.length + recLen (Rec.fileData n c), false))
    ∧ (∀ (data pre n rest : List Nat) (r : Nat),
      n.length < U32 → r < U32 →
      data = pre ++ (recPayload (Rec.fileRef n r) ++ rest) →
      readFile data pre.length (recLen (Rec.fileRef n r))
        = ({ name := n, size := 0, offset := (pre.length + U32 - 8) % U32,
             dataOffset := 0, dataOffsetRef := r },
           pre.length + recLen (Rec.fileRef n r), false)) := by
  constructor
  · intro data pre n c rest hn hc hdata
    unfold readFile
    simp only [recLen]
    rw [rfLoop_fileData data pre n c rest
      { offset := (pre.length + U32 - 8) % U32 } (16 + n.length + c.length)
      (by omega) hn hc (by rw [hdata]; simp [recPayload])]
    have e : pre.length + 16 + n.length + c.length
        = pre.length + (16 + n.length + c.length) := by omega
    rw [e]
  · intro data pre n rest r hn hr hdata
    unfold readFile
    simp only [recLen]
    rw [rfLoop_fileRef data pre n rest r
      { offset := (pre.length + U32 - 8) % U32 } (20 + n.length)
      (by omega) hn hr (by rw [hdata]; simp [recPayload])]
    have e : pre.length + 20 + n.length = pre.length + (20 + n.length) := by omega
    rw [e]

/-- Witness for C6: a one-byte file `"a" = [7]` serialized alone. -/
theorem claim_C6_amended_witness :
    readFile (hdr (recLen (Rec.fileData [97] [7])) FILE_TAG ++
        (recPayload (Rec.fileData [97] [7]) ++ []))
      (hdr (recLen (Rec.fileData [97] [7])) FILE_TAG).length
      (recLen (Rec.fileData [97] [7]))
      = ({ name := [97], size := 1,
           offset := ((hdr (recLen (Rec.fileData [97] [7])) FILE_TAG).length + U32 - 8) % U32,
           dataOffset := ((hdr (recLen (Rec.fileData [97] [7])) FILE_TAG).length + 16 + 1) % U32,
           dataOffsetRef := 0 },
         (hdr (recLen (Rec.fileData [97] [7])) FILE_TAG).length
           + recLen (Rec.fileData [97] [7]), false) :=
  claim_C6_amended.1 _ (hdr (recLen (Rec.fileData [97] [7])) FILE_TAG) [97] [7] []
    (by decide) (by decide) rfl

/-- Claim C7 counterexample.  Chained references are not rejected:
`chainContainer` ends with record `"x"` referencing record `"b"`, itself a
reference.  Extraction reports nothing for `"x"` and creates an output file
for it (empty, from the target's default data location). -/
theorem claim_C7_counterexample :
    (extract chainContainer).2.outputs = [([97], [7]), ([98], [7]), ([120], [])]
    ∧ (extract chainContainer).2.refErrors = []
    ∧ (extract chainContainer).2.truncErrors = [] := by
  refine ⟨by decide, by decide, by decide⟩

/-- Claim C7 (amended).  When a file record's reference target is present in
the table, the extractor performs exactly one level of resolution with *no*
check that the target owns data: it adopts the target's `dataOffset` and
`size` unchanged.  For a target that is itself a reference (so its
`dataOffset` and `size` still hold their defaults 0), the extractor reports
no error and creates an output file with empty content. -/
theorem claim_C7_amended (data : List Nat) (table rest : List RFile) (f t : RFile)
    (href : f.dataOffsetRef ≠ 0)
    (hfind : table.find? (fun g => decide (g.offset = f.dataOffsetRef)) = some t)
    (ht0 : t.dataOffset = 0) (ht1 : t.size = 0) :
    extractFilesGo data table (f :: rest)
      = { extractFilesGo data table rest with
          outputs := (f.name, []) :: (extractFilesGo data table rest).outputs } := by
  rw [extractFilesGo]
  rw [if_pos href]
  rw [hfind]
  simp [ht0, ht1, slice]

/-- Witness for C7: a table whose single entry is itself a reference. -/
theorem claim_C7_amended_witness :
    extractFilesGo [1, 2, 3] [⟨[98], 0, 35, 0, 9⟩] [⟨[120], 0, 64, 0, 35⟩]
      = { extractFilesGo [1, 2, 3] [⟨[98], 0, 35, 0, 9⟩] [] with
          outputs := ([120], []) ::
            (extractFilesGo [1, 2, 3] [⟨[98], 0, 35, 0, 9⟩] []).outputs } :=
  claim_C7_amended [1, 2, 3] [⟨[98], 0, 35, 0, 9⟩] [] ⟨[120], 0, 64, 0, 35⟩
    ⟨[98], 0, 35, 0, 9⟩ (by decide) (by decide) (by decide) (by decide)

/-- Claim C8 counterexample.  A DATA_REF whose offset (0) is absent from the
reader's table (whose only key is 9) produces *no* reported failure and is
not skipped: the zero offset is taken for "no reference" and an (empty)
output file is created.  The claim's "exactly one failure" is violated. -/
theorem claim_C8_counterexample :
    ((exLoop zeroDangContainer zeroDangContainer.length 0 [] []).2.map fun t => t.offset)
        = [9]
    ∧ (extract zeroDangContainer).2.refErrors = []
    ∧ (extract zeroDangContainer).2.outputs = [([98], [])] := by
  refine ⟨by decide, by decide, by decide⟩

/-- Claim C8 (amended).  Dangling-reference tolerance for a *nonzero* dangling
offset: for every 32-bit-sized container consisting of DIR and
original-content FILE records plus exactly one FILE record whose DATA_REF
offset `rb` is nonzero and matches no FILE record offset, extraction reports
exactly one failure (for that record), skips it, and still extracts every
other entry — each file with exactly its content bytes — and every
directory. -/
theorem claim_C8_amended (xs ys : List Rec) (nb : List Nat) (rb : Nat)
    (hnoref : ∀ r ∈ xs ++ ys, isRef r = false)
    (hfit : (containerBytes (xs ++ Rec.fileRef nb rb :: ys)).length < U32)
    (hrb0 : rb ≠ 0) (hrbU : rb < U32)
    (hdang : rb ∉ filePositions 0 (xs ++ Rec.fileRef nb rb :: ys)) :
    extract (containerBytes (xs ++ Rec.fileRef nb rb :: ys))
      = (dirNames (xs ++ Rec.fileRef nb rb :: ys),
         ⟨dataOutputs (xs ++ Rec.fileRef nb rb :: ys), [nb], []⟩) := by
  have honly : ∀ (n : List Nat) (r : Nat),
      Rec.fileRef n r ∈ xs ++ Rec.fileRef nb rb :: ys → n = nb ∧ r = rb := by
    intro n r hmem
    rcases List.mem_append.mp hmem with h | h
    · have := hnoref _ (List.mem_append.mpr (Or.inl h))
      simp [isRef] at this
    · rcases List.mem_cons.mp h with h | h
      · cases h; exact ⟨rfl, rfl⟩
      · have := hnoref _ (List.mem_append.mpr (Or.inr h))
        simp [isRef] at this
  have hwf := wf_of_fit _ hfit (by
    intro n r hmem
    obtain ⟨_, rfl⟩ := honly n r hmem
    exact hrbU)
  have hparse := exLoop_parse (xs ++ Rec.fileRef nb rb :: ys)
    (containerBytes (xs ++ Rec.fileRef nb rb :: ys)).length [] [] [] hwf
    (by simpa using hfit) (length_le_totalBytes _)
  simp only [List.nil_append, List.length_nil] at hparse
  have hrefs : ∀ (n : List Nat) (r : Nat),
      Rec.fileRef n r ∈ xs ++ Rec.fileRef nb rb :: ys → r ≠ 0 ∧
        ∀ t ∈ parseAll 0 (xs ++ Rec.fileRef nb rb :: ys), ¬ (t.offset = r) := by
    intro n r hmem
    obtain ⟨rfl, rfl⟩ := honly n r hmem
    refine ⟨hrb0, ?_⟩
    intro t ht he
    have hmem2 := parseAll_offset_mem _ 0 t ht
    rw [he] at hmem2
    exact hdang hmem2
  have hextr := extractGo_parse (containerBytes (xs ++ Rec.fileRef nb rb :: ys))
    (parseAll 0 (xs ++ Rec.fileRef nb rb :: ys)) (xs ++ Rec.fileRef nb rb :: ys) [] []
    (by simp) hrefs
  simp only [List.length_nil] at hextr
  have hrn : refNames (xs ++ Rec.fileRef nb rb :: ys) = [nb] := by
    unfold refNames
    rw [List.filterMap_append]
    have hxs : xs.filterMap (fun r => match r with
        | Rec.fileRef n _ => some n | _ => none) = [] := by
      refine List.filterMap_eq_nil_iff.mpr ?_
      intro r hr
      have hh := hnoref r (List.mem_append.mpr (Or.inl hr))
      cases r with
      | dir n => rfl
      | fileData n c => rfl
      | fileRef n rr => simp [isRef] at hh
    have hys : ys.filterMap (fun r => match r with
        | Rec.fileRef n _ => some n | _ => none) = [] := by
      refine List.filterMap_eq_nil_iff.mpr ?_
      intro r hr
      have hh := hnoref r (List.mem_append.mpr (Or.inr hr))
      cases r with
      | dir n => rfl
      | fileData n c => rfl
      | fileRef n rr => simp [isRef] at hh
    rw [hxs]
    simp [hys]
  unfold extract extractFiles
  rw [hparse]
  simp only
  rw [hextr, hrn]

/-- Witness for C8: `nzDangContainer` — a directory, two content files, and
one dangling DATA_REF to offset 77. -/
theorem claim_C8_amended_witness :
    extract (containerBytes ([Rec.dir [100], Rec.fileData [97] [7]]
        ++ Rec.fileRef [98] 77 :: [Rec.fileData [99] [8, 9]]))
      = (dirNames ([Rec.dir [100], Rec.fileData [97] [7]]
          ++ Rec.fileRef [98] 77 :: [Rec.fileData [99] [8, 9]]),
         ⟨dataOutputs ([Rec.dir [100], Rec.fileData [97] [7]]
            ++ Rec.fileRef [98] 77 :: [Rec.fileData [99] [8, 9]]), [[98]], []⟩) :=
  claim_C8_amended [Rec.dir [100], Rec.fileData [97] [7]] [Rec.fileData [99] [8, 9]]
    [98] 77 (by decide) (by decide) (by decide) (by decide) (by decide)

/-- Claim C9 (confirmed).  Partial-failure tolerance of `create`: with the
input root present and the archive openable, `create` returns success
whatever the per-file failures; each unopenable regular file is reported
(one error per such file), and the emitted records are exactly those of the
walk over the openable entries — unopenable files leave no record and do not
disturb the rest of the walk. -/
theorem claim_C9_skip_unreadable (fp : List Nat → Nat) (entries : List Entry) :
    (create fp true true entries).1 = true
    ∧ (createWalk fp entries).errors = entries.countP entryUnopenable
    ∧ (createWalk fp entries).recs
        = (createWalk fp (entries.filter fun e => !entryUnopenable e)).recs := by
  refine ⟨rfl, ?_, ?_⟩
  · simpa [createWalk] using foldl_errors fp entries ⟨[], 0, [], 0⟩
  · exact (foldl_skip_unopenable fp entries ⟨[], 0, [], 0⟩ ⟨[], 0, [], 0⟩ rfl rfl rfl).1

/-- Claim C10 (confirmed).  Implicit zero-offset sentinel: a FILE record whose
DATA_REF payload is 0 parses into a `File` whose `dataOffsetRef` is 0 — the
same value as a record with no DATA_REF at all — so the extractor classifies
it as an original-content record (its nonzero test fails), uses the default
`dataOffset` 0 and `size` 0, performs no table lookup (no dangling-reference
report even though offset 0 is absent from the table, whose only key is 9),
and writes an empty output file. -/
theorem claim_C10_zero_sentinel :
    (exLoop zeroDangContainer zeroDangContainer.length 0 [] []).2
        = [⟨[98], 0, 9, 0, 0⟩]
    ∧ extract zeroDangContainer = ([[100]], ⟨[([98], [])], [], []⟩) := by
  refine ⟨by decide, by decide⟩

end Archive
